import Mathlib

set_option linter.unusedVariables false

/-!
Shallow embedding of the resumable Google Drive folder-copy engine found in
src/unnamed/part_000 (a bundled build of the TypeScript sources, of which
src/lib/Util.ts and src/lib/API.ts are two originals).  Remote services
(Drive API, spreadsheet log, property stores) are modelled as oracles; every
remote call and every log write is recorded in an event trace so that temporal
claims can be stated about traces.  JavaScript numbers that hold millisecond
durations are modelled as Int; the float products 4.7*1000*60 and 6.2*1000*60
denote the exact integers 282000 and 372000.
-/

namespace DriveCopy

/-! ### Timer constants and trigger-duration policy
    Source: Timer (part_000 lines 5-34) and Properties.checkMaxRuntime
    (part_000 lines 150-154). -/

def MAX_RUNTIME_PER_DAY : Int := 88 * 1000 * 60

def MAX_RUNTIME : Int := 282000

def oneDay : Int := 24 * 60 * 60 * 1000

def sixMinutes : Int := 372000

/-- Properties.prototype.checkMaxRuntime:
    `this.totalRuntime + Timer.MAX_RUNTIME >= Timer.MAX_RUNTIME_PER_DAY`. -/
def checkMaxRuntime (totalRuntime : Int) : Bool :=
  decide (totalRuntime + MAX_RUNTIME ≥ MAX_RUNTIME_PER_DAY)

/-- Timer.prototype.calculateTriggerDuration: `properties.checkMaxRuntime() ?
    Timer.oneDay : Timer.sixMinutes - this.runtime`.  `runtime` is the elapsed
    wall time of the current invocation at the moment of the call. -/
def calculateTriggerDuration (totalRuntime runtime : Int) : Int :=
  if checkMaxRuntime totalRuntime then oneDay else sixMinutes - runtime

/-- The reading of claim C5 under which the non-exhausted trigger delay is one
    fixed constant, independent of the engine state. -/
def fixedShortDelayClaim : Prop :=
  ∃ c : Int, ∀ totalRuntime runtime : Int,
    checkMaxRuntime totalRuntime = false →
      calculateTriggerDuration totalRuntime runtime = c

/-! ### Message constants
    Source: ErrorMessages (part_000 lines 68-84) and Constants
    (part_000 lines 179-189). -/

def ErrDescendant : String :=
  "Cannot select destination folder that exists within the source folder"

def ErrOutOfSpace : String :=
  "You have run out of space in your Drive! You should delete some files and then come back and use the \"Resume\" feature to restart your copy."

def ErrWillDuplicateOnResume : String :=
  "HEADS UP! Your most recently copied files WILL BE DUPLICATED if you resume. To avoid duplicating, you will need to restart your copy from the beginning"

def ErrFailedSaveProperties : String :=
  "Failed to save properties. This could affect script performance and may require restarting the copy. Error Message: "

def ErrFailedSetLeftovers : String :=
  "Failed to set leftover file list. Error Message: "

def MsgSingleRunExceeded : String :=
  "Paused due to Google quota limits - copy will resume in 1-2 minutes"

def MsgUserStoppedScript : String :=
  "Stopped manually by user. Please use \"Resume\" button to restart copying"

def MsgMaxRuntimeExceeded : String :=
  "Script has reached daily maximum run time of 90 minutes. Script must pause for 24 hours to reset Google Quotas, and will resume at that time. For more information, please see https://developers.google.com/apps-script/guides/services/quotas"

/-- The substring Util.saveState looks for in a thrown error message to detect
    destination storage exhaustion (part_000 line 277). -/
def quotaExceededPart : String := "exceeded their Drive storage quota"

/-! ### String containment, standing in for JavaScript `indexOf(...) !== -1`. -/

def listStartsWith : List Char → List Char → Bool
  | [], _ => true
  | _ :: _, [] => false
  | a :: as, b :: bs => a == b && listStartsWith as bs

def listFindSub (needle : List Char) : List Char → Bool
  | [] => listStartsWith needle []
  | c :: cs => listStartsWith needle (c :: cs) || listFindSub needle cs

/-- `strContains hay needle` is true exactly when `needle` occurs as a
    contiguous substring of `hay`, i.e. `hay.indexOf(needle) !== -1`. -/
def strContains (hay needle : String) : Bool :=
  listFindSub needle.toList hay.toList

/-! ### Items and file listings (gapi FileResource / FileListResource).
    A CopyItem's `parents` array is modelled by the id of its first element,
    which is the only part the engine reads (`item.parents[0].id`).
    `numberOfAttempts = 0` models the JavaScript `undefined` counter (both are
    falsy in the guard `item.numberOfAttempts && ...`). -/

structure Item where
  id : String
  title : String := ""
  description : String := ""
  parent : String
  mimeType : String := ""
  owners : List String := []
  errorMsg : String := ""
  numberOfAttempts : Nat := 0
  deriving DecidableEq, Repr

structure FileList where
  items : List Item
  nextPageToken : Option String := none
  deriving DecidableEq, Repr

/-! ### Util.cleanup (part_000 lines 291-318, src/lib/Util.ts lines 197-250). -/

structure TimerSnap where
  timeIsUp : Bool
  stop : Bool
  runtime : Int
  deriving DecidableEq, Repr

/-- Timer.prototype.canContinue: `!this.timeIsUp && !this.stop`. -/
def canContinueSnap (t : TimerSnap) : Bool := !t.timeIsUp && !t.stop

inductive CAct
  | deleteTrigger
  | saveStateCall (stopMsg : String)
  | trashPropertiesDoc
  | markComplete
  deriving DecidableEq, Repr

/-- Util.cleanup, as the list of externally visible actions it performs plus
    the updated `totalRuntime` accumulator.  `saveStateCall msg` stands for the
    call `Util.saveState(properties, fileList, msg, ss, gDriveService)`;
    `trashPropertiesDoc` for trashing the checkpoint document;
    `markComplete` for writing the Complete cell and timestamp to the log.
    The stop message, the early trigger deletion, and the runtime reset follow
    the if/else-if chain of the source. -/
def cleanup (t : TimerSnap) (totalRuntime : Int) (isOverMaxRuntime : Bool)
    (retryQueueLength : Nat) : List CAct × Int :=
  let tot1 := totalRuntime + t.runtime
  let stopMsg :=
    if t.stop then MsgUserStoppedScript
    else if isOverMaxRuntime then MsgMaxRuntimeExceeded
    else MsgSingleRunExceeded
  let pre : List CAct := if t.stop then [CAct.deleteTrigger] else []
  let tot2 : Int := if t.stop then tot1 else if isOverMaxRuntime then 0 else tot1
  if !canContinueSnap t || retryQueueLength > 0 then
    (pre ++ [CAct.saveStateCall stopMsg], tot2)
  else
    (pre ++ [CAct.deleteTrigger, CAct.trashPropertiesDoc, CAct.markComplete], tot2)

/-! ### Util.saveState (part_000 lines 264-290, src/lib/Util.ts lines 135-195).
    The outcome of `Properties.save` is an oracle: `none` models success,
    `some msg` models a thrown error whose `.message` is `msg`.  Error
    composition drops the JavaScript `fileName`/`lineNumber` suffix, which the
    claims never inspect. -/

inductive SAct
  | logRow (row : List String)
  | deleteTrigger
  | propertiesSave (ok : Bool)
  deriving DecidableEq, Repr

def composeErrorMsg (msg customMsg : String) : List String := [customMsg ++ msg]

/-- Util.saveState.  Arguments: the save-outcome oracle, the `fileList`
    argument, the current `properties.leftovers`, the current
    `properties.pageToken`, and the suspension `logMessage`.  Returns the new
    `leftovers`, the new `pageToken`, and the action trace.  The first try
    block keeps the old leftovers when `fileList` is absent, and reading
    `properties.leftovers.nextPageToken` throws (logging the
    FailedSetLeftovers row, leaving `pageToken` unchanged) when both are
    absent. -/
def saveState (saveErr : Option String) (fileList : Option FileList)
    (leftovers0 : Option FileList) (pageToken0 : Option String)
    (logMessage : String) : Option FileList × Option String × List SAct :=
  let leftovers1 := match fileList with
    | some fl => some fl
    | none => leftovers0
  let pageToken1 := match leftovers1 with
    | some fl => fl.nextPageToken
    | none => pageToken0
  let evs1 : List SAct := match leftovers1 with
    | some _ => []
    | none => [SAct.logRow (composeErrorMsg "TypeError" ErrFailedSetLeftovers)]
  let rest : List SAct :=
    match saveErr with
    | none => [SAct.propertiesSave true, SAct.logRow [logMessage]]
    | some msg =>
      if strContains msg quotaExceededPart then
        [SAct.propertiesSave false, SAct.deleteTrigger,
         SAct.logRow [ErrOutOfSpace], SAct.logRow [ErrWillDuplicateOnResume]]
      else
        [SAct.propertiesSave false,
         SAct.logRow (composeErrorMsg msg ErrFailedSaveProperties),
         SAct.logRow [logMessage]]
  (leftovers1, pageToken1, evs1 ++ rest)

/-! ### Permissions (FileService.prototype.copyPermissions, part_000 610-666). -/

structure Perm where
  id : String
  role : String
  ptype : String
  emailAddress : String := ""
  withLink : Bool := false
  deriving DecidableEq, Repr

inductive PermBody
  | byValue (role ptype value : String)
  | byId (role ptype id : String) (withLink : Bool)
  deriving DecidableEq, Repr

inductive PermEv
  | listCall (fileId : String) (ok : Bool)
  | insertCall (body : PermBody) (destId : String) (ok : Bool)
  | removeCall (fileId : String) (permId : String) (ok : Bool)
  | logError (msg : String)
  deriving DecidableEq, Repr

def isPermLog : PermEv → Bool
  | PermEv.logError _ => true
  | _ => false

/-! ### The Drive oracle: outcomes of all remote calls.
    `listFiles folder tok` is the page the API returns for the children query
    of `folder` (`none` models a thrown call, caught at part_000 line 841).
    `copyOk` decides whether `Drive.Files.copy` / `Drive.Files.insert`
    succeeds for a given item (the attempt counter is part of the item, so an
    item may fail on one attempt and succeed on a later one); `destId` is the
    id of the file it creates.  `getPerms`, `insOk`, `removeOk` drive the
    permission calls. -/

structure Drive where
  listFiles : Option String → Option String → Option FileList
  copyOk : Item → Bool
  destId : Item → String
  getPerms : String → Option (List Perm)
  insOk : PermBody → Bool
  removeOk : String → String → Bool
  rootId : String := "root"
  newFolderId : String := "newFolder"

/-- The body built for one source permission entry in the first loop of
    copyPermissions; `none` when the entry is skipped (`role == 'owner'` with
    an email address).  An empty `emailAddress` models the falsy
    `permissions[i].emailAddress`. -/
def permBodyFor (p : Perm) : Option PermBody :=
  if p.emailAddress != "" then
    if p.role == "owner" then none
    else some (PermBody.byValue p.role p.ptype p.emailAddress)
  else some (PermBody.byId p.role p.ptype p.id p.withLink)

/-- First loop of copyPermissions: one insertPermission call per non-skipped
    source entry, each wrapped in `try { ... } catch (e) {}`, so a failed call
    is recorded with `ok := false` and the loop simply continues. -/
def insertLoop (d : Drive) (destId : String) : List Perm → List PermEv
  | [] => []
  | p :: rest =>
    match permBodyFor p with
    | none => insertLoop d destId rest
    | some body => PermEv.insertCall body destId (d.insOk body) :: insertLoop d destId rest

/-- Second loop of copyPermissions: a writer grant per source owner, likewise
    with an empty catch. -/
def ownersLoop (d : Drive) (destId : String) : List String → List PermEv
  | [] => []
  | o :: rest =>
    let body := PermBody.byValue "writer" "user" o
    PermEv.insertCall body destId (d.insOk body) :: ownersLoop d destId rest

/-- The inner `j` scan of the reconcile loop: `true` when the remove branch is
    reached for `dp`, i.e. `dp.id` matches no source entry, the source list is
    non-empty, the scan reaches the last index, and `dp.role != 'owner'`. -/
def reconcileInner (dp : Perm) : List Perm → Bool
  | [] => false
  | [p] => if dp.id == p.id then false else dp.role != "owner"
  | p :: q :: rest => if dp.id == p.id then false else reconcileInner dp (q :: rest)

/-- The outer reconcile loop over destination entries.  `permsOpt = none`
    models the source fetch having failed: reading `permissions.length` then
    throws (flag `false`), and an unguarded removePermission failure also
    throws; both propagate out of copyPermissions. -/
def reconcileLoop (d : Drive) (destId : String) (permsOpt : Option (List Perm)) :
    List Perm → List PermEv × Bool
  | [] => ([], true)
  | dp :: rest =>
    match permsOpt with
    | none => ([], false)
    | some perms =>
      if reconcileInner dp perms then
        if d.removeOk destId dp.id then
          let r := reconcileLoop d destId permsOpt rest
          (PermEv.removeCall destId dp.id true :: r.1, r.2)
        else ([PermEv.removeCall destId dp.id false], false)
      else reconcileLoop d destId permsOpt rest

/-- FileService.prototype.copyPermissions.  Returns the trace of permission
    calls and log writes, and `true` when the function returned normally
    (`false` when it threw out of the reconcile phase). -/
def copyPermissions (d : Drive) (srcId : String) (owners : List String)
    (destId : String) : List PermEv × Bool :=
  let permsOpt := d.getPerms srcId
  let evA : List PermEv := match permsOpt with
    | some _ => [PermEv.listCall srcId true]
    | none => [PermEv.listCall srcId false, PermEv.logError "getPermissions src failed"]
  let evB : List PermEv := match permsOpt with
    | some ps => if ps.length > 0 then insertLoop d destId ps else []
    | none => []
  let evC : List PermEv := if owners.length > 0 then ownersLoop d destId owners else []
  let destPermsOpt := d.getPerms destId
  let evD : List PermEv := match destPermsOpt with
    | some _ => [PermEv.listCall destId true]
    | none => [PermEv.listCall destId false, PermEv.logError "getPermissions dest failed"]
  let reconc := match destPermsOpt with
    | some dps => if dps.length > 0 then reconcileLoop d destId permsOpt dps else ([], true)
    | none => ([], true)
  (evA ++ evB ++ evC ++ evD ++ reconc.1, reconc.2)

/-! ### Engine state.
    `PState` is the in-memory Properties object (checkpoint state); `TState`
    the Timer.  The timer environment `tmr : Nat → Bool` gives the value
    `canContinue()` would return after the n-th `timer.update` of the
    invocation (wall clock and user stop flag combined); before the first
    update `canContinue()` is true (runtime 0, flags false). -/

structure TState where
  ticks : Nat
  cont : Bool
  deriving DecidableEq, Repr

def tUpdate (tmr : Nat → Bool) (ts : TState) : TState :=
  { ticks := ts.ticks + 1, cont := tmr ts.ticks }

structure PState where
  map : List (String × String)
  remaining : List String
  retryQueue : List Item
  leftovers : Option FileList
  pageToken : Option String
  currFolderId : Option String
  copyPermissions : Bool
  deriving DecidableEq, Repr

/-- Lookup in the id map (`properties.map[k]`); the JavaScript object is
    modelled as an association list where assignment prepends, so the first
    match is the current binding. -/
def mapLookup (m : List (String × String)) (k : String) : Option String :=
  match m.find? (fun kv => kv.1 == k) with
  | some kv => some kv.2
  | none => none

def folderMime : String := "application/vnd.google-apps.folder"

def nativeMimeTypes : List String :=
  ["application/vnd.google-apps.document",
   "application/vnd.google-apps.drawing",
   folderMime,
   "application/vnd.google-apps.form",
   "application/vnd.google-apps.script",
   "application/vnd.google-apps.spreadsheet",
   "application/vnd.google-apps.presentation"]

def maxNumberOfAttempts : Nat := 3

/-! ### Event trace of one `copy` invocation. -/

inductive Ev
  | shiftRemaining (id : Option String)
  | listCall (folder : Option String) (tok : Option String)
  | copyCall (item : Item) (destParent : Option String)
  | logCopySuccess (item : Item) (newId : String)
  | logCopyError (item : Item)
  | requeued (item : Item)
  | perm (e : PermEv)
  | logError (msg : String)
  | phaseMain
  | phaseRetries
  deriving DecidableEq, Repr

/-- FileService.prototype.copyFile (part_000 lines 599-609).  The
    `Ev.copyCall` event records the id-map lookup
    `properties.map[file.parents[0].id]` made while building the request body,
    i.e. the destination-parent mapping available at the moment the remote
    call is issued.  On a successful folder insert, the source folder id is
    pushed onto `remaining` and its destination id recorded in `map` before
    returning.  First component `none` models a thrown remote call. -/
def copyFile (d : Drive) (st : PState) (item : Item) :
    Option String × PState × List Ev :=
  let destParent := mapLookup st.map item.parent
  if item.mimeType == folderMime then
    if d.copyOk item then
      let newId := d.destId item
      (some newId,
       { st with remaining := st.remaining ++ [item.id],
                 map := (item.id, newId) :: st.map },
       [Ev.copyCall item destParent])
    else (none, st, [Ev.copyCall item destParent])
  else
    if d.copyOk item then (some (d.destId item), st, [Ev.copyCall item destParent])
    else (none, st, [Ev.copyCall item destParent])

/-- The retry record built in the catch branch of processFileList:
    `numberOfAttempts: item.numberOfAttempts ? item.numberOfAttempts + 1 : 1`. -/
def bumpAttempts (n : Nat) : Nat := if n != 0 then n + 1 else 1

/-- The retry record unshifted onto the queue when the copy of `item` threw. -/
def retryRecord (item : Item) : Item :=
  { id := item.id, title := item.title, description := item.description,
    parent := item.parent, mimeType := item.mimeType, owners := item.owners,
    errorMsg := "copy failed", numberOfAttempts := bumpAttempts item.numberOfAttempts }

/-- The permissions step of one processFileList iteration (part_000 lines
    705-712): guarded by the job flag and the native-kind check, wrapped in a
    catch that swallows everything.  When the copy attempt threw, `newfile`
    still holds the value from the previous loop iteration (function-scoped
    `var`); if no copy has succeeded yet it is `undefined` and `newfile.id`
    throws, swallowed by the same catch, so no permission call is made. -/
def permStep (d : Drive) (st : PState) (item : Item) (newfile : Option String) :
    List Ev :=
  if st.copyPermissions && nativeMimeTypes.contains item.mimeType then
    match newfile with
    | none => []
    | some nf => ((copyPermissions d item.id item.owners nf).1).map Ev.perm
  else []

/-- The body of one processFileList iteration after the attempt-ceiling guard:
    try the copy; on success log it, on failure push a bumped retry record
    onto the FRONT of `retryQueue` (`unshift`); then run the permissions
    step. -/
def handleOneItem (d : Drive) (st : PState) (item : Item) (newfile : Option String) :
    PState × Option String × List Ev :=
  let cf := copyFile d st item
  match cf.1 with
  | some newId =>
    (cf.2.1, some newId,
     cf.2.2 ++ [Ev.logCopySuccess item newId] ++ permStep d cf.2.1 item (some newId))
  | none =>
    let st2 := { cf.2.1 with retryQueue := retryRecord item :: cf.2.1.retryQueue }
    (st2, newfile, cf.2.2 ++ [Ev.requeued (retryRecord item)] ++ permStep d st2 item newfile)

/-- FileService.prototype.processFileList (part_000 lines 679-715) on a list
    distinct from `retryQueue` (fresh pages and leftovers).  The JavaScript
    loop pops from the BACK of `items`; we recurse over the reversed list, so
    the head here is the item popped next.  A popped item whose counter
    exceeds the ceiling is logged via Util.logCopyError and dropped —
    `continue` also skips the timer update.  Returns the items still in the
    array when the loop exits (reversed), the state, the timer, the trace. -/
def processRev (d : Drive) (tmr : Nat → Bool) :
    List Item → PState → TState → Option String →
    List Item × PState × TState × List Ev
  | [], st, ts, _ => ([], st, ts, [])
  | item :: rest, st, ts, newfile =>
    if !ts.cont then (item :: rest, st, ts, [])
    else if item.numberOfAttempts != 0 && item.numberOfAttempts > maxNumberOfAttempts then
      let r := processRev d tmr rest st ts newfile
      (r.1, r.2.1, r.2.2.1, Ev.logCopyError item :: r.2.2.2)
    else
      let h1 := handleOneItem d st item newfile
      let r := processRev d tmr rest h1.1 (tUpdate tmr ts) h1.2.1
      (r.1, r.2.1, r.2.2.1, h1.2.2 ++ r.2.2.2)

/-- processFileList on a fresh array: wraps `processRev` on the reversed list
    and reverses the undrained remainder back. -/
def processFileList (d : Drive) (tmr : Nat → Bool) (items : List Item)
    (st : PState) (ts : TState) : List Item × PState × TState × List Ev :=
  let r := processRev d tmr items.reverse st ts none
  (r.1.reverse, r.2.1, r.2.2.1, r.2.2.2)

/-- processFileList when handleRetries passes `this.properties.retryQueue`
    itself: pops come from the back of the very list that failures are
    unshifted onto, so the drained list and the growing list alias.  Fuel
    bounds the number of loop iterations; a run that empties the queue is
    reached at any sufficient fuel. -/
def processRetryGo (d : Drive) (tmr : Nat → Bool) :
    Nat → PState → TState → Option String → PState × TState × List Ev
  | 0, st, ts, _ => (st, ts, [])
  | fuel + 1, st, ts, newfile =>
    if st.retryQueue.isEmpty || !ts.cont then (st, ts, [])
    else
      match st.retryQueue.getLast? with
      | none => (st, ts, [])
      | some item =>
        let st0 := { st with retryQueue := st.retryQueue.dropLast }
        if item.numberOfAttempts != 0 && item.numberOfAttempts > maxNumberOfAttempts then
          let r := processRetryGo d tmr fuel st0 ts newfile
          (r.1, r.2.1, Ev.logCopyError item :: r.2.2)
        else
          let h1 := handleOneItem d st0 item newfile
          let r := processRetryGo d tmr fuel h1.1 (tUpdate tmr ts) h1.2.1
          (r.1, r.2.1, h1.2.2 ++ r.2.2)

/-- FileService.prototype.handleLeftovers (part_000 lines 667-672): when the
    loaded leftovers page has items, point `currFolderId` at the first item's
    parent and drain the page through processFileList; the array is drained in
    place, so the undrained remainder stays in `leftovers.items`. -/
def handleLeftovers (d : Drive) (tmr : Nat → Bool) (st : PState) (ts : TState) :
    PState × TState × List Ev :=
  match st.leftovers with
  | none => (st, ts, [])
  | some fl =>
    match fl.items with
    | [] => (st, ts, [])
    | first :: _ =>
      let r := processFileList d tmr fl.items { st with currFolderId := some first.parent } ts
      ({ r.2.1 with leftovers := some { fl with items := r.1 } }, r.2.2.1, r.2.2.2)

/-- FileService.prototype.handleRetries (part_000 lines 673-678): when the
    retry queue is non-empty, point `currFolderId` at the FIRST queue entry's
    parent and drain the queue (aliased) through processFileList. -/
def handleRetries (d : Drive) (tmr : Nat → Bool) (rf : Nat) (st : PState)
    (ts : TState) : PState × TState × List Ev :=
  match st.retryQueue with
  | [] => (st, ts, [])
  | first :: _ =>
    processRetryGo d tmr rf { st with currFolderId := some first.parent } ts none

/-- The inner do-while of `copy` (part_000 lines 837-855): fetch a page of
    `currFolder`'s children (a thrown fetch is logged, leaving the local
    `fileList` at its previous — possibly stale — value), drain it through
    processFileList, take the next page token from the current `fileList`
    value, update the timer, and repeat while a token remains and the timer
    permits.  The last `fileList` value (with its items drained in place) is
    threaded through and returned, because `copy` later hands it to
    Util.cleanup. -/
def paginateGo (d : Drive) (tmr : Nat → Bool) :
    Nat → Option String → PState → TState → Option FileList →
    PState × TState × List Ev × Option FileList
  | 0, _, st, ts, fl => (st, ts, [], fl)
  | pf + 1, currFolder, st, ts, fl =>
    let fetched := d.listFiles currFolder st.pageToken
    let fl1 := match fetched with
      | some newFl => some newFl
      | none => fl
    let evFetch : List Ev := match fetched with
      | some _ => [Ev.listCall currFolder st.pageToken]
      | none => [Ev.listCall currFolder st.pageToken, Ev.logError "getFiles threw"]
    let pr := match fl1 with
      | some f =>
        if f.items.length > 0 then processFileList d tmr f.items st ts
        else ([], st, ts, [])
      | none => ([], st, ts, [])
    let fl2 := match fl1 with
      | some f => some { f with items := pr.1 }
      | none => none
    let st2 := { pr.2.1 with pageToken := match fl1 with
      | some f => f.nextPageToken
      | none => none }
    let ts2 := tUpdate tmr pr.2.2.1
    if st2.pageToken.isSome && ts2.cont then
      let r := paginateGo d tmr pf currFolder st2 ts2 fl2
      (r.1, r.2.1, evFetch ++ pr.2.2.2 ++ r.2.2.1, r.2.2.2)
    else (st2, ts2, evFetch ++ pr.2.2.2, fl2)

/-- The outer while of `copy` (part_000 lines 820-856): while folders remain
    pending or a page token is outstanding, and the timer permits, choose the
    current folder — continue `currFolderId`'s pagination when both a token
    and `currFolderId` are set, otherwise shift the front of `remaining`
    (`Ev.shiftRemaining` records the pop; shifting an empty array yields
    `undefined`, recorded as `none`) — and paginate it.  Fuel `mf` bounds the
    outer iterations, `pf` each pagination. -/
def mainLoopGo (d : Drive) (tmr : Nat → Bool) (pf : Nat) :
    Nat → PState → TState → Option FileList →
    PState × TState × List Ev × Option FileList
  | 0, st, ts, fl => (st, ts, [], fl)
  | mf + 1, st, ts, fl =>
    if (st.remaining.length > 0 || st.pageToken.isSome) && ts.cont then
      if st.pageToken.isSome && st.currFolderId.isSome then
        let p := paginateGo d tmr pf st.currFolderId st ts fl
        let r := mainLoopGo d tmr pf mf p.1 p.2.1 p.2.2.2
        (r.1, r.2.1, p.2.2.1 ++ r.2.2.1, r.2.2.2)
      else
        match st.remaining with
        | [] =>
          let p := paginateGo d tmr pf none st ts fl
          let r := mainLoopGo d tmr pf mf p.1 p.2.1 p.2.2.2
          (r.1, r.2.1, Ev.shiftRemaining none :: (p.2.2.1 ++ r.2.2.1), r.2.2.2)
        | c :: rest =>
          let p := paginateGo d tmr pf (some c) { st with remaining := rest } ts fl
          let r := mainLoopGo d tmr pf mf p.1 p.2.1 p.2.2.2
          (r.1, r.2.1, Ev.shiftRemaining (some c) :: (p.2.2.1 ++ r.2.2.1), r.2.2.2)
    else (st, ts, [], fl)

/-- The `copy` entry point (part_000 lines 798-859), from the point where the
    checkpoint has been loaded into `st0`: update the timer (815), drain
    leftovers (818), update the timer (819), run the main pending loop
    (820-856), then drain the retry queue (857).  Trigger management, the
    exponential-backoff property load and the final Util.cleanup call are
    embedded separately.  The `Ev.phaseMain` / `Ev.phaseRetries` markers
    record where the main pending loop and the handleRetries call begin. -/
def copy (d : Drive) (tmr : Nat → Bool) (pf mf rf : Nat) (st0 : PState) :
    PState × TState × List Ev × Option FileList :=
  let ts1 := tUpdate tmr { ticks := 0, cont := true }
  let r1 := handleLeftovers d tmr st0 ts1
  let ts3 := tUpdate tmr r1.2.1
  let r2 := mainLoopGo d tmr pf mf r1.1 ts3 none
  let r3 := handleRetries d tmr rf r2.1 r2.2.1
  (r3.1, r3.2.1,
   r1.2.2 ++ Ev.phaseMain :: r2.2.2.1 ++ Ev.phaseRetries :: r3.2.2,
   r2.2.2.2)

/-! ### Predicates over states and traces used by the claims. -/

/-- Every pending folder id already has a destination mapping. -/
def RInv (st : PState) : Prop :=
  ∀ i ∈ st.remaining, (mapLookup st.map i).isSome = true

/-- Every queued retry item's parent already has a destination mapping. -/
def QInv (st : PState) : Prop :=
  ∀ it ∈ st.retryQueue, (mapLookup st.map it.parent).isSome = true

/-- Every leftover item's parent already has a destination mapping. -/
def LInv (st : PState) : Prop :=
  ∀ fl, st.leftovers = some fl → ∀ it ∈ fl.items, (mapLookup st.map it.parent).isSome = true

/-- The folder whose pagination may be resumed has a destination mapping. -/
def CInv (st : PState) : Prop :=
  ∀ c, st.currFolderId = some c → (mapLookup st.map c).isSome = true

/-- The id map only grows: every key mapped before is mapped after. -/
def MapExt (m m2 : List (String × String)) : Prop :=
  ∀ k, (mapLookup m k).isSome = true → (mapLookup m2 k).isSome = true

/-- Every copy call recorded in the trace was issued with the item's parent
    already present in the id map. -/
def CopyCallsOk (tr : List Ev) : Prop :=
  ∀ it m, Ev.copyCall it m ∈ tr → m.isSome = true

/-- The children listing honours its query: every item of a returned page has
    the queried folder as its first parent. -/
def ListedChildrenOk (d : Drive) : Prop :=
  ∀ cf tok fl, d.listFiles cf tok = some fl → ∀ it ∈ fl.items, some it.parent = cf

def isShiftEv : Ev → Bool
  | Ev.shiftRemaining _ => true
  | _ => false

def isCopyCallOf (i : String) : Ev → Bool
  | Ev.copyCall it _ => it.id == i
  | _ => false

def NoShift (tr : List Ev) : Prop := ∀ e ∈ tr, isShiftEv e = false

/-- Weight of a queued item for the retry-drain termination measure. -/
def qWeight (it : Item) : Nat :=
  if it.numberOfAttempts > maxNumberOfAttempts then 1 else 5 - it.numberOfAttempts

def qMeasure (q : List Item) : Nat := (q.map qWeight).sum

/-! ### Job initiation: initializeDestinationFolder (part_000 lines 716-738)
    and FileService.isDescendant (part_000 lines 761-788).
    `meta` maps a file id to the ids of its `parents` from getMetadata.
    `isDescendant`'s outer loop, its inner loop over a fetched parents array,
    and the final results loop all reuse the SAME loop variable `i`; after a
    non-empty parents array is scanned the outer index resumes at
    `parents.length + 1`, skipping entries — embedded faithfully below.
    `fuel` bounds recursion depth and loop steps; `none` models a
    non-terminating/overflowing run. -/

inductive IEv
  | getRootCall
  | getMetaCall (id : String)
  | insertFolderCall (parentId : String) (title : String)
  | permEv (e : PermEv)
  deriving DecidableEq, Repr

/-- One recursion of FileService.isDescendant.  `entry = true` runs the
    leading direct-equality loop, then enters the indexed walk at `i = 0` with
    an empty results accumulator.  In the walk, a child with no parents
    advances `i` by one; a scanned parents array `cp` containing `p` returns
    true; otherwise the recursive result is accumulated and — because the
    inner scan clobbered `i` — the walk resumes at `cp.length + 1`. -/
def isDescGo (meta : String → List String) :
    Nat → List String → String → Nat → List Bool → Bool → Option Bool × List IEv
  | 0, _, _, _, _, _ => (none, [])
  | fuel + 1, ids, p, i, acc, entry =>
    if entry then
      if ids.contains p then (some true, [])
      else isDescGo meta fuel ids p 0 [] false
    else
      if h : i < ids.length then
        let cid := ids[i]
        let cp := meta cid
        if cp.length == 0 then
          let r := isDescGo meta fuel ids p (i + 1) acc false
          (r.1, IEv.getMetaCall cid :: r.2)
        else if cp.contains p then (some true, [IEv.getMetaCall cid])
        else
          let rc := isDescGo meta fuel cp p 0 [] true
          match rc.1 with
          | none => (none, IEv.getMetaCall cid :: rc.2)
          | some b =>
            let r := isDescGo meta fuel ids p (cp.length + 1) (acc ++ [b]) false
            (r.1, IEv.getMetaCall cid :: (rc.2 ++ r.2))
      else (some (acc.contains true), [])

/-- FileService.isDescendant(maybeChildIDs, maybeParentID). -/
def isDescendant (meta : String → List String) (fuel : Nat)
    (ids : List String) (p : String) : Option Bool × List IEv :=
  isDescGo meta fuel ids p 0 [] true

/-- `Reaches meta p x`: from `x` one can climb single-parent links to `p`,
    i.e. the folder `x` lies inside the tree rooted at `p` along a chain in
    which every intermediate node has exactly one parent. -/
inductive Reaches (meta : String → List String) (p : String) : String → Prop
  | refl : Reaches meta p p
  | step {x y : String} : meta x = [y] → Reaches meta p y → Reaches meta p x

structure Opts where
  copyTo : String
  srcFolderID : String
  srcFolderName : String := ""
  srcParentID : String := ""
  destFolderName : String := ""
  destParentID : String := ""
  copyPermissions : Bool := false
  deriving DecidableEq, Repr

/-- FileService.prototype.initializeDestinationFolder (the Lean name drops the
    `ialize` suffix of the source name).  Resolves the destination parent per
    `copyTo`, runs the descendant check for `copyTo === 'custom'`, throws
    `ErrDescendant` when it answers true, otherwise inserts the destination
    folder and optionally replicates the source folder's permissions onto it
    (the source passes `owners = null`, so the owners loop is skipped).
    Result `none` models a non-terminating descendant check. -/
def initDestinationFolder (meta : String → List String) (d : Drive) (fuel : Nat)
    (o : Opts) (today : String) : Option (Except String String × List IEv) :=
  let destParentID :=
    if o.copyTo == "same" then o.srcParentID
    else if o.copyTo == "custom" then o.destParentID
    else d.rootId
  let evs0 : List IEv :=
    if o.copyTo == "same" then []
    else if o.copyTo == "custom" then []
    else [IEv.getRootCall]
  let desc :=
    if o.copyTo == "custom" then isDescendant meta fuel [o.destParentID] o.srcFolderID
    else (some false, [])
  match desc.1 with
  | none => none
  | some true => some (Except.error ErrDescendant, evs0 ++ desc.2)
  | some false =>
    let permEvs : List IEv :=
      if o.copyPermissions then
        ((copyPermissions d o.srcFolderID [] d.newFolderId).1).map IEv.permEv
      else []
    some (Except.ok d.newFolderId,
      evs0 ++ desc.2 ++ [IEv.insertFolderCall destParentID o.destFolderName] ++ permEvs)

/-- A mutating remote call during initiation: folder creation or a permission
    insert/remove.  Metadata reads and permission listings are read-only. -/
def isMutatingIEv : IEv → Bool
  | IEv.insertFolderCall _ _ => true
  | IEv.permEv (PermEv.insertCall _ _ _) => true
  | IEv.permEv (PermEv.removeCall _ _ _) => true
  | _ => false

end DriveCopy

namespace DriveCopy

/-! ## Theorems -/

/-! ### Claim C5 — next-invocation delay policy -/

/-- Claim C5 counterexample: the non-exhausted trigger delay is not one fixed
    value — the source computes `sixMinutes - runtime`, which differs between
    an invocation interrupted at runtime 0 (delay 372000 ms) and one
    interrupted at runtime 60000 (delay 312000 ms). -/
theorem c5_counterexample : ¬ fixedShortDelayClaim := by
  rintro ⟨c, h⟩
  have h1 := h 0 0 (by decide)
  have h2 := h 0 60000 (by decide)
  have e1 : calculateTriggerDuration 0 0 = 372000 := by decide
  have e2 : calculateTriggerDuration 0 60000 = 312000 := by decide
  rw [e1] at h1
  rw [e2] at h2
  omega

/-- Claim C5 (amended): for every cumulative daily runtime, the computed
    trigger delay equals the full-day backoff exactly when the code's
    daily-ceiling check (`totalRuntime + MAX_RUNTIME ≥ MAX_RUNTIME_PER_DAY`)
    holds; otherwise it equals `sixMinutes` minus the invocation's elapsed
    runtime, hence is at most the short 6.2-minute interval. -/
theorem c5_delay_policy (tot run : Int) (h : 0 ≤ run) :
    (calculateTriggerDuration tot run = oneDay ↔ checkMaxRuntime tot = true) ∧
    (checkMaxRuntime tot = false →
      calculateTriggerDuration tot run = sixMinutes - run ∧
      calculateTriggerDuration tot run ≤ sixMinutes) := by
  cases hc : checkMaxRuntime tot
  · have e : calculateTriggerDuration tot run = sixMinutes - run := by
      unfold calculateTriggerDuration
      rw [hc]
      rfl
    refine ⟨⟨fun he => ?_, fun he => ?_⟩, fun _ => ⟨e, by rw [e]; omega⟩⟩
    · rw [e] at he
      unfold sixMinutes oneDay at he
      omega
    · exact nomatch he
  · have e : calculateTriggerDuration tot run = oneDay := by
      unfold calculateTriggerDuration
      rw [hc]
      rfl
    exact ⟨⟨fun _ => rfl, fun _ => e⟩, fun hf => nomatch hf⟩

/-- Witness for c5_delay_policy at runtime 60000. -/
theorem c5_delay_policy_witness :
    (0 : Int) ≤ 60000 ∧
    ((calculateTriggerDuration 0 60000 = oneDay ↔ checkMaxRuntime 0 = true) ∧
      (checkMaxRuntime 0 = false →
        calculateTriggerDuration 0 60000 = sixMinutes - 60000 ∧
        calculateTriggerDuration 0 60000 ≤ sixMinutes)) :=
  ⟨by decide, c5_delay_policy 0 60000 (by decide)⟩

/-! ### Claim C6 — completion versus suspension in Util.cleanup -/

/-- Claim C6: at the end of an invocation, the checkpoint document is trashed
    and the log finalized (Complete cell written) exactly when the timer still
    permits continuing and the retry queue is empty; in every other case
    Util.saveState is invoked with the suspension message instead. -/
theorem c6_cleanup_complete_iff (t : TimerSnap) (tot : Int) (over : Bool) (rq : Nat) :
    ((CAct.trashPropertiesDoc ∈ (cleanup t tot over rq).1 ∧
      CAct.markComplete ∈ (cleanup t tot over rq).1) ↔
      (canContinueSnap t = true ∧ rq = 0)) ∧
    (¬(canContinueSnap t = true ∧ rq = 0) →
      ∃ msg, CAct.saveStateCall msg ∈ (cleanup t tot over rq).1) := by
  unfold cleanup canContinueSnap
  obtain ⟨up, stp, rt⟩ := t
  cases up <;> cases stp <;> cases over <;> cases rq <;> simp_all

/-- Witness for c6_cleanup_complete_iff on a timer that stopped with a
    non-empty retry queue. -/
theorem c6_cleanup_complete_iff_witness :
    ((CAct.trashPropertiesDoc ∈ (cleanup ⟨true, false, 100⟩ 5 false 2).1 ∧
      CAct.markComplete ∈ (cleanup ⟨true, false, 100⟩ 5 false 2).1) ↔
      (canContinueSnap ⟨true, false, 100⟩ = true ∧ 2 = 0)) ∧
    (¬(canContinueSnap ⟨true, false, 100⟩ = true ∧ 2 = 0) →
      ∃ msg, CAct.saveStateCall msg ∈ (cleanup ⟨true, false, 100⟩ 5 false 2).1) :=
  c6_cleanup_complete_iff ⟨true, false, 100⟩ 5 false 2

/-! ### Claim C8 — checkpoint-save failure handling in Util.saveState -/

/-- Claim C8: when Properties.save throws with a message reporting Drive
    storage exhaustion, saveState deletes the run's trigger, logs the
    out-of-space row and the will-duplicate-on-resume row, and does not log
    the suspension message; on any other save failure it logs the composed
    save error and still logs the suspension message.  The three inequality
    hypotheses record that the suspension message is none of the fixed warning
    rows (true of all three call sites, which pass the stop messages). -/
theorem c8_saveState_policy (saveErr : Option String)
    (fileList leftovers0 : Option FileList) (pageToken0 : Option String)
    (logMessage : String)
    (hm1 : logMessage ≠ ErrOutOfSpace)
    (hm2 : logMessage ≠ ErrWillDuplicateOnResume)
    (hm3 : logMessage ≠ ErrFailedSetLeftovers ++ "TypeError") :
    (∀ msg, saveErr = some msg → strContains msg quotaExceededPart = true →
      SAct.deleteTrigger ∈ (saveState saveErr fileList leftovers0 pageToken0 logMessage).2.2 ∧
      SAct.logRow [ErrOutOfSpace] ∈ (saveState saveErr fileList leftovers0 pageToken0 logMessage).2.2 ∧
      SAct.logRow [ErrWillDuplicateOnResume] ∈ (saveState saveErr fileList leftovers0 pageToken0 logMessage).2.2 ∧
      SAct.logRow [logMessage] ∉ (saveState saveErr fileList leftovers0 pageToken0 logMessage).2.2) ∧
    (∀ msg, saveErr = some msg → strContains msg quotaExceededPart = false →
      SAct.logRow (composeErrorMsg msg ErrFailedSaveProperties) ∈
        (saveState saveErr fileList leftovers0 pageToken0 logMessage).2.2 ∧
      SAct.logRow [logMessage] ∈ (saveState saveErr fileList leftovers0 pageToken0 logMessage).2.2) := by
  unfold saveState composeErrorMsg
  constructor
  · rintro msg rfl hq
    cases fileList <;> cases leftovers0 <;> simp_all [List.mem_append]
  · rintro msg rfl hq
    cases fileList <;> cases leftovers0 <;> simp_all [List.mem_append]

/-- Witness for c8_saveState_policy: a quota-exhaustion failure and an
    unrelated failure, each at concrete inputs. -/
theorem c8_saveState_policy_witness :
    MsgSingleRunExceeded ≠ ErrOutOfSpace ∧
    (∀ msg, (some quotaExceededPart : Option String) = some msg →
      strContains msg quotaExceededPart = true →
      SAct.deleteTrigger ∈ (saveState (some quotaExceededPart) none none none MsgSingleRunExceeded).2.2 ∧
      SAct.logRow [ErrOutOfSpace] ∈ (saveState (some quotaExceededPart) none none none MsgSingleRunExceeded).2.2 ∧
      SAct.logRow [ErrWillDuplicateOnResume] ∈ (saveState (some quotaExceededPart) none none none MsgSingleRunExceeded).2.2 ∧
      SAct.logRow [MsgSingleRunExceeded] ∉ (saveState (some quotaExceededPart) none none none MsgSingleRunExceeded).2.2) ∧
    (∀ msg, (some quotaExceededPart : Option String) = some msg →
      strContains msg quotaExceededPart = false →
      SAct.logRow (composeErrorMsg msg ErrFailedSaveProperties) ∈
        (saveState (some quotaExceededPart) none none none MsgSingleRunExceeded).2.2 ∧
      SAct.logRow [MsgSingleRunExceeded] ∈ (saveState (some quotaExceededPart) none none none MsgSingleRunExceeded).2.2) := by
  refine ⟨by decide, ?_⟩
  exact c8_saveState_policy (some quotaExceededPart) none none none MsgSingleRunExceeded
    (by decide) (by decide) (by decide)

end DriveCopy

namespace DriveCopy

/-! ### Retry-queue lemmas shared by claims C3, C4, C10 -/

theorem qWeight_pos (it : Item) : 1 ≤ qWeight it := by
  unfold qWeight maxNumberOfAttempts
  split <;> omega

theorem qMeasure_nil_of_zero (q : List Item) (h : qMeasure q = 0) : q = [] := by
  cases q with
  | nil => rfl
  | cons a l =>
    exfalso
    have ha := qWeight_pos a
    unfold qMeasure at h
    simp only [List.map_cons, List.sum_cons] at h
    omega

theorem qMeasure_concat (q : List Item) (x : Item) :
    qMeasure (q ++ [x]) = qMeasure q + qWeight x := by
  unfold qMeasure
  simp

/-- On copy failure the retry record is unshifted onto the queue front; on
    success the queue is untouched. -/
theorem handleOneItem_retryQueue (d : Drive) (st : PState) (item : Item) (nf : Option String) :
    (handleOneItem d st item nf).1.retryQueue =
      if d.copyOk item then st.retryQueue else retryRecord item :: st.retryQueue := by
  unfold handleOneItem copyFile
  cases hok : d.copyOk item <;> cases hmt : item.mimeType == folderMime <;> simp [hok, hmt]

/-- The guard `item.numberOfAttempts && item.numberOfAttempts > 3` being falsy
    bounds the bumped counter by 4 from above and 1 from below. -/
theorem guard_false_cases (n : Nat)
    (h : ((n != 0) && decide (n > maxNumberOfAttempts)) = false) : n ≤ 3 := by
  rcases Bool.and_eq_false_iff.mp h with h1 | h1
  · have : n = 0 := by simpa using h1
    omega
  · have : ¬ n > maxNumberOfAttempts := by simpa using h1
    unfold maxNumberOfAttempts at this
    omega

theorem bump_bound (n : Nat)
    (h : ((n != 0) && decide (n > maxNumberOfAttempts)) = false) :
    1 ≤ bumpAttempts n ∧ bumpAttempts n ≤ maxNumberOfAttempts + 1 := by
  have h3 := guard_false_cases n h
  unfold bumpAttempts maxNumberOfAttempts
  interval_cases n <;> decide

/-- One failed processing decreases the weight of the popped item by exactly
    one in the bumped record. -/
theorem qWeight_bump (item : Item)
    (h : ((item.numberOfAttempts != 0) && decide (item.numberOfAttempts > maxNumberOfAttempts)) = false) :
    qWeight (retryRecord item) + 1 ≤ qWeight item := by
  have h3 := guard_false_cases item.numberOfAttempts h
  have hrr : (retryRecord item).numberOfAttempts = bumpAttempts item.numberOfAttempts := rfl
  unfold qWeight
  rw [hrr]
  unfold bumpAttempts maxNumberOfAttempts
  set n := item.numberOfAttempts with hn
  clear hrr hn h
  interval_cases n <;> decide

/-- Draining the aliased retry queue with fuel at least its measure empties
    it, provided the timer never stops. -/
theorem retry_drain_empties (d : Drive) (tmr : Nat → Bool) (htmr : ∀ n, tmr n = true) :
    ∀ fuel st ts nf, qMeasure st.retryQueue ≤ fuel → ts.cont = true →
      (processRetryGo d tmr fuel st ts nf).1.retryQueue = [] := by
  intro fuel
  induction fuel with
  | zero =>
    intro st ts nf hm hc
    have hq : st.retryQueue = [] := qMeasure_nil_of_zero _ (Nat.le_zero.mp hm)
    simp [processRetryGo, hq]
  | succ n ih =>
    intro st ts nf hm hc
    by_cases hq : st.retryQueue = []
    · simp [processRetryGo, hq]
    · have hlast : st.retryQueue.getLast? = some (st.retryQueue.getLast hq) :=
        List.getLast?_eq_getLast _ hq
      set item := st.retryQueue.getLast hq with hitem
      have hsplit : st.retryQueue.dropLast ++ [item] = st.retryQueue :=
        List.dropLast_append_getLast hq
      have hmeq : qMeasure st.retryQueue = qMeasure st.retryQueue.dropLast + qWeight item := by
        conv_lhs => rw [← hsplit]
        exact qMeasure_concat _ _
      have hwpos := qWeight_pos item
      have hmdrop : qMeasure st.retryQueue.dropLast + qWeight item ≤ n + 1 := hmeq ▸ hm
      unfold processRetryGo
      have hne : st.retryQueue.isEmpty = false := by
        simp [List.isEmpty_iff, hq]
      rw [hne, hc]
      simp only [Bool.not_true, Bool.or_false, Bool.false_eq_true, if_false, hlast]
      cases hg : ((item.numberOfAttempts != 0) && decide (item.numberOfAttempts > maxNumberOfAttempts)) with
      | true =>
        simp only [hg, if_true]
        refine ih _ _ _ ?_ hc
        show qMeasure st.retryQueue.dropLast ≤ n
        omega
      | false =>
        simp only [hg, Bool.false_eq_true, if_false]
        apply ih
        · have hhq := handleOneItem_retryQueue d
            { st with retryQueue := st.retryQueue.dropLast } item nf
          cases hok : d.copyOk item
          · rw [hok] at hhq
            simp only [Bool.false_eq_true, if_false] at hhq
            rw [hhq]
            have hb := qWeight_bump item hg
            have hcons : qMeasure (retryRecord item ::
                ({ st with retryQueue := st.retryQueue.dropLast } : PState).retryQueue) =
                qWeight (retryRecord item) + qMeasure st.retryQueue.dropLast := by
              show qMeasure (retryRecord item :: st.retryQueue.dropLast) = _
              unfold qMeasure
              simp
            rw [hcons]
            omega
          · rw [hok] at hhq
            simp only [if_true] at hhq
            rw [hhq]
            show qMeasure st.retryQueue.dropLast ≤ n
            omega
        · simp [tUpdate, htmr]

/-! ### Claim C10 — retry-drain termination -/

/-- Claim C10: draining the retry queue through processFileList run on the
    queue itself terminates with an empty queue for every finite input, every
    copy-outcome oracle and every fuel-independent non-stopping timer: some
    finite iteration bound (fuel) reaches the empty queue, because every
    re-enqueued record carries a strictly larger counter and items past the
    ceiling are dropped. -/
theorem c10_retry_drain_terminates (d : Drive) (tmr : Nat → Bool) (st : PState)
    (ts : TState) (nf : Option String) (htmr : ∀ n, tmr n = true)
    (hts : ts.cont = true) :
    ∃ fuel, (processRetryGo d tmr fuel st ts nf).1.retryQueue = [] :=
  ⟨qMeasure st.retryQueue, retry_drain_empties d tmr htmr _ st ts nf le_rfl hts⟩

def exDrive : Drive :=
  { listFiles := fun _ _ => none, copyOk := fun _ => false,
    destId := fun it => it.id ++ "x", getPerms := fun _ => some [],
    insOk := fun _ => false, removeOk := fun _ _ => false }

def c10State : PState :=
  { map := [("p", "dp")], remaining := [],
    retryQueue := [{ id := "r", parent := "p", mimeType := "text/plain", numberOfAttempts := 1 }],
    leftovers := none, pageToken := none, currFolderId := none, copyPermissions := false }

/-- Witness for c10_retry_drain_terminates: an always-failing single item. -/
theorem c10_retry_drain_terminates_witness :
    ∃ fuel, (processRetryGo exDrive (fun _ => true) fuel c10State ⟨0, true⟩ none).1.retryQueue = [] :=
  c10_retry_drain_terminates exDrive (fun _ => true) c10State ⟨0, true⟩ none
    (fun _ => rfl) rfl

end DriveCopy

namespace DriveCopy

/-- The permissions step emits only wrapped permission events. -/
theorem permStep_no_requeued (d : Drive) (st : PState) (item : Item)
    (nf : Option String) (it : Item) :
    Ev.requeued it ∉ permStep d st item nf := by
  unfold permStep
  intro h
  split at h
  · cases nf with
    | none => simp at h
    | some x =>
      rcases List.mem_map.mp h with ⟨e, _, he⟩
      cases he
  · simp at h

/-- copyFile emits exactly the copy-call event carrying the parent lookup. -/
theorem copyFile_events (d : Drive) (st : PState) (item : Item) :
    (copyFile d st item).2.2 = [Ev.copyCall item (mapLookup st.map item.parent)] := by
  unfold copyFile
  split <;> split <;> rfl

/-- The only requeued record an iteration can emit is the bumped retry record
    of the item it processed. -/
theorem handleOneItem_requeued (d : Drive) (st : PState) (item : Item)
    (nf : Option String) (it : Item)
    (h : Ev.requeued it ∈ (handleOneItem d st item nf).2.2) :
    it = retryRecord item := by
  simp only [handleOneItem] at h
  split at h
  · rw [copyFile_events] at h
    exfalso
    rcases List.mem_append.mp h with h | h
    · rcases List.mem_append.mp h with h | h
      · simp at h
      · simp at h
    · exact permStep_no_requeued _ _ _ _ _ h
  · rw [copyFile_events] at h
    rcases List.mem_append.mp h with h | h
    · rcases List.mem_append.mp h with h | h
      · simp at h
      · have h2 := List.mem_singleton.mp h
        simpa using h2
    · exact absurd h (permStep_no_requeued _ _ _ _ _)

/-- Any record requeued while draining a fresh list carries a counter between
    1 and 4. -/
theorem processRev_requeued_bound (d : Drive) (tmr : Nat → Bool) :
    ∀ items st ts nf it, Ev.requeued it ∈ (processRev d tmr items st ts nf).2.2.2 →
      1 ≤ it.numberOfAttempts ∧ it.numberOfAttempts ≤ maxNumberOfAttempts + 1 := by
  intro items
  induction items with
  | nil =>
    intro st ts nf it h
    simp [processRev] at h
  | cons a l ih =>
    intro st ts nf it h
    unfold processRev at h
    split at h
    · simp at h
    · split at h
      · rcases List.mem_cons.mp h with h | h
        · cases h
        · exact ih _ _ _ _ h
      · rename_i hg
        have hg2 : ((a.numberOfAttempts != 0) &&
            decide (a.numberOfAttempts > maxNumberOfAttempts)) = false :=
          Bool.eq_false_iff.mpr hg
        rcases List.mem_append.mp h with h | h
        · have he := handleOneItem_requeued d st a nf it h
          subst he
          have hb : (retryRecord a).numberOfAttempts = bumpAttempts a.numberOfAttempts := rfl
          rw [hb]
          exact bump_bound _ hg2
        · exact ih _ _ _ _ h

/-- Any record requeued while draining the aliased retry queue carries a
    counter between 1 and 4. -/
theorem processRetryGo_requeued_bound (d : Drive) (tmr : Nat → Bool) :
    ∀ fuel st ts nf it, Ev.requeued it ∈ (processRetryGo d tmr fuel st ts nf).2.2 →
      1 ≤ it.numberOfAttempts ∧ it.numberOfAttempts ≤ maxNumberOfAttempts + 1 := by
  intro fuel
  induction fuel with
  | zero =>
    intro st ts nf it h
    simp [processRetryGo] at h
  | succ n ih =>
    intro st ts nf it h
    unfold processRetryGo at h
    split at h
    · simp at h
    · split at h
      · simp at h
      · rename_i item hlast
        split at h
        · rcases List.mem_cons.mp h with h | h
          · cases h
          · exact ih _ _ _ _ h
        · rename_i hg
          have hg2 : ((item.numberOfAttempts != 0) &&
              decide (item.numberOfAttempts > maxNumberOfAttempts)) = false :=
            Bool.eq_false_iff.mpr hg
          rcases List.mem_append.mp h with h | h
          · have he := handleOneItem_requeued d _ item nf it h
            subst he
            have hb : (retryRecord item).numberOfAttempts = bumpAttempts item.numberOfAttempts := rfl
            rw [hb]
            exact bump_bound _ hg2
          · exact ih _ _ _ _ h

/-! ### Claim C3 — retry ceiling -/

/-- Claim C3 (amended): (1) a popped item whose counter is already above the
    ceiling of 3 is logged via Util.logCopyError and dropped — the queue step
    continues on the shortened queue with no copy call, no requeue and no
    timer update for it; (2)/(3) every record requeued by the drains carries a
    counter between 1 and 4, so an item whose 3rd retry fails re-enters the
    queue exactly once more (counter 4) and can never appear beyond that. -/
theorem c3_retry_ceiling (d : Drive) (tmr : Nat → Bool) :
    (∀ fuel st ts nf item, ts.cont = true →
      st.retryQueue.getLast? = some item →
      ((item.numberOfAttempts != 0) && decide (item.numberOfAttempts > maxNumberOfAttempts)) = true →
      processRetryGo d tmr (fuel + 1) st ts nf =
        ((processRetryGo d tmr fuel { st with retryQueue := st.retryQueue.dropLast } ts nf).1,
         (processRetryGo d tmr fuel { st with retryQueue := st.retryQueue.dropLast } ts nf).2.1,
         Ev.logCopyError item ::
           (processRetryGo d tmr fuel { st with retryQueue := st.retryQueue.dropLast } ts nf).2.2)) ∧
    (∀ items st ts nf it, Ev.requeued it ∈ (processRev d tmr items st ts nf).2.2.2 →
      1 ≤ it.numberOfAttempts ∧ it.numberOfAttempts ≤ maxNumberOfAttempts + 1) ∧
    (∀ fuel st ts nf it, Ev.requeued it ∈ (processRetryGo d tmr fuel st ts nf).2.2 →
      1 ≤ it.numberOfAttempts ∧ it.numberOfAttempts ≤ maxNumberOfAttempts + 1) := by
  refine ⟨?_, processRev_requeued_bound d tmr, processRetryGo_requeued_bound d tmr⟩
  intro fuel st ts nf item hc hlast hg
  have hq : st.retryQueue ≠ [] := by
    intro hh
    rw [hh] at hlast
    cases hlast
  have hne : st.retryQueue.isEmpty = false := by simp [List.isEmpty_iff, hq]
  conv_lhs => unfold processRetryGo
  simp only [hne, hc, hlast, hg, Bool.not_true, Bool.or_false, Bool.false_eq_true,
    if_false, if_true]

def c3Item : Item :=
  { id := "r", parent := "p", mimeType := "text/plain", numberOfAttempts := 3 }

def c3State : PState :=
  { map := [("p", "dp")], remaining := [], retryQueue := [c3Item],
    leftovers := none, pageToken := none, currFolderId := none, copyPermissions := false }

/-- Claim C3 counterexample: an item popped on its 3rd retry attempt (counter
    3) is not dropped; when the copy fails again it is requeued with counter 4,
    so it appears in retryQueue after its 3rd retry attempt, contradicting
    "no item ever appears in retryQueue after its 3rd retry attempt". -/
theorem c3_counterexample :
    ((processRetryGo exDrive (fun _ => true) 1 c3State ⟨0, true⟩ none).1.retryQueue.map
      (fun it => it.numberOfAttempts)) = [4] ∧
    Ev.requeued (retryRecord c3Item) ∈
      (processRetryGo exDrive (fun _ => true) 1 c3State ⟨0, true⟩ none).2.2 := by
  decide

/-- Witness for c3_retry_ceiling: a queue whose last item has counter 5. -/
theorem c3_retry_ceiling_witness :
    processRetryGo exDrive (fun _ => true) 1
        { c3State with retryQueue := [{ c3Item with numberOfAttempts := 5 }] } ⟨0, true⟩ none =
      ((processRetryGo exDrive (fun _ => true) 0
          { c3State with retryQueue := [] } ⟨0, true⟩ none).1,
       (processRetryGo exDrive (fun _ => true) 0
          { c3State with retryQueue := [] } ⟨0, true⟩ none).2.1,
       Ev.logCopyError { c3Item with numberOfAttempts := 5 } ::
         (processRetryGo exDrive (fun _ => true) 0
            { c3State with retryQueue := [] } ⟨0, true⟩ none).2.2) :=
  (c3_retry_ceiling exDrive (fun _ => true)).1 0
    { c3State with retryQueue := [{ c3Item with numberOfAttempts := 5 }] } ⟨0, true⟩ none
    { c3Item with numberOfAttempts := 5 } rfl rfl rfl

end DriveCopy

namespace DriveCopy

/-! ### Claim C4 — retry order -/

/-- Claim C4 (amended): every failed copy unshifts a retry record with a
    bumped attempt counter onto the FRONT of `retryQueue`; but the drain pops
    from the BACK of the aliased queue, so the entry processed first is the
    OLDEST failure (the last element), i.e. the most recent failure is retried
    LAST, not soonest. -/
theorem c4_retry_order (d : Drive) (tmr : Nat → Bool) :
    (∀ st item nf, d.copyOk item = false →
      (handleOneItem d st item nf).1.retryQueue = retryRecord item :: st.retryQueue ∧
      (retryRecord item).numberOfAttempts = bumpAttempts item.numberOfAttempts) ∧
    (∀ fuel st ts nf q item, ts.cont = true → st.retryQueue = q ++ [item] →
      ((item.numberOfAttempts != 0) && decide (item.numberOfAttempts > maxNumberOfAttempts)) = false →
      processRetryGo d tmr (fuel + 1) st ts nf =
        ((processRetryGo d tmr fuel (handleOneItem d { st with retryQueue := q } item nf).1
            (tUpdate tmr ts) (handleOneItem d { st with retryQueue := q } item nf).2.1).1,
         (processRetryGo d tmr fuel (handleOneItem d { st with retryQueue := q } item nf).1
            (tUpdate tmr ts) (handleOneItem d { st with retryQueue := q } item nf).2.1).2.1,
         (handleOneItem d { st with retryQueue := q } item nf).2.2 ++
           (processRetryGo d tmr fuel (handleOneItem d { st with retryQueue := q } item nf).1
              (tUpdate tmr ts) (handleOneItem d { st with retryQueue := q } item nf).2.1).2.2)) := by
  constructor
  · intro st item nf hok
    refine ⟨?_, rfl⟩
    have hhq := handleOneItem_retryQueue d st item nf
    rw [hok] at hhq
    simpa using hhq
  · intro fuel st ts nf q item hc hsplit hg
    have hq : st.retryQueue ≠ [] := by
      rw [hsplit]
      simp
    have hne : st.retryQueue.isEmpty = false := by simp [List.isEmpty_iff, hq]
    have hlast : st.retryQueue.getLast? = some item := by
      rw [hsplit]
      simp
    have hdrop : st.retryQueue.dropLast = q := by
      rw [hsplit]
      simp
    conv_lhs => unfold processRetryGo
    simp only [hne, hc, hlast, hg, hdrop, Bool.not_true, Bool.or_false,
      Bool.false_eq_true, if_false, if_true]

def c4State : PState :=
  { map := [("p", "dp")], remaining := [],
    retryQueue := [{ id := "B", parent := "p", mimeType := "text/plain", numberOfAttempts := 1 },
                   { id := "A", parent := "p", mimeType := "text/plain", numberOfAttempts := 1 }],
    leftovers := none, pageToken := none, currFolderId := none, copyPermissions := false }

def c4Drive : Drive := { exDrive with copyOk := fun _ => true }

/-- Claim C4 counterexample: with queue [B, A] where B is the most recent
    failure (unshifted to the front), the drain retries A (the oldest) first —
    the copy call for A precedes the copy call for B, so the most recently
    failed item is NOT retried soonest. -/
theorem c4_counterexample :
    ((processRetryGo c4Drive (fun _ => true) 9 c4State ⟨0, true⟩ none).2.2.findIdx
        (isCopyCallOf "A") <
      (processRetryGo c4Drive (fun _ => true) 9 c4State ⟨0, true⟩ none).2.2.findIdx
        (isCopyCallOf "B")) ∧
    (processRetryGo c4Drive (fun _ => true) 9 c4State ⟨0, true⟩ none).2.2.any
      (isCopyCallOf "A") = true ∧
    (processRetryGo c4Drive (fun _ => true) 9 c4State ⟨0, true⟩ none).2.2.any
      (isCopyCallOf "B") = true := by
  decide

/-- Witness for c4_retry_order: a concrete failing copy is unshifted onto the
    queue front with the bumped counter. -/
theorem c4_retry_order_witness :
    (handleOneItem exDrive c10State c3Item none).1.retryQueue =
      retryRecord c3Item :: c10State.retryQueue ∧
    (retryRecord c3Item).numberOfAttempts = bumpAttempts c3Item.numberOfAttempts :=
  (c4_retry_order exDrive (fun _ => true)).1 c10State c3Item none rfl

/-! ### Claim C9 — permission-entry failure isolation -/

theorem insertLoop_events (d : Drive) (dest : String) :
    ∀ ps, ∀ e ∈ insertLoop d dest ps, ∃ b ok, e = PermEv.insertCall b dest ok := by
  intro ps
  induction ps with
  | nil =>
    intro e he
    simp [insertLoop] at he
  | cons p rest ih =>
    intro e he
    unfold insertLoop at he
    split at he
    · exact ih e he
    · rcases List.mem_cons.mp he with he | he
      · exact ⟨_, _, he⟩
      · exact ih e he

theorem insertLoop_length (d : Drive) (dest : String) :
    ∀ ps : List Perm, (insertLoop d dest ps).length ≤ ps.length := by
  intro ps
  induction ps with
  | nil => simp [insertLoop]
  | cons p rest ih =>
    unfold insertLoop
    split
    · exact Nat.le_succ_of_le ih
    · simpa using ih

theorem ownersLoop_length (d : Drive) (dest : String) :
    ∀ os : List String, (ownersLoop d dest os).length = os.length := by
  intro os
  induction os with
  | nil => rfl
  | cons o rest ih => simp [ownersLoop, ih]

theorem reconcileLoop_ignores_insOk (d : Drive) (f : PermBody → Bool)
    (dest : String) (permsOpt : Option (List Perm)) :
    ∀ dps, reconcileLoop { d with insOk := f } dest permsOpt dps =
      reconcileLoop d dest permsOpt dps := by
  intro dps
  induction dps with
  | nil => rfl
  | cons dp rest ih =>
    unfold reconcileLoop
    cases permsOpt with
    | none => rfl
    | some perms =>
      simp only []
      split
      · split
        · simp [ih]
        · rfl
      · exact ih

/-- The returned-normally flag of copyPermissions does not depend on the
    outcomes of the per-entry insert calls. -/
theorem copyPermissions_outcome_ignores_insOk (d : Drive) (f : PermBody → Bool)
    (srcId : String) (owners : List String) (destId : String) :
    (copyPermissions { d with insOk := f } srcId owners destId).2 =
      (copyPermissions d srcId owners destId).2 := by
  unfold copyPermissions
  cases hs : d.getPerms srcId <;> cases hd : d.getPerms destId <;>
    simp [hs, hd, reconcileLoop_ignores_insOk]

/-- The state and newfile produced by one item-processing step do not depend
    on any permission oracle: permission failures are swallowed by the
    enclosing try/catch and never affect the copy outcome or the retry
    queue. -/
theorem handleOneItem_state_ignores_perms (d : Drive) (g : String → Option (List Perm))
    (f : PermBody → Bool) (r : String → String → Bool) (st : PState) (item : Item)
    (nf : Option String) :
    (handleOneItem { d with getPerms := g, insOk := f, removeOk := r } st item nf).1 =
      (handleOneItem d st item nf).1 ∧
    (handleOneItem { d with getPerms := g, insOk := f, removeOk := r } st item nf).2.1 =
      (handleOneItem d st item nf).2.1 := by
  unfold handleOneItem copyFile
  cases hok : d.copyOk item <;> cases hmt : item.mimeType == folderMime <;>
    simp [hok, hmt]

/-- Claim C9 (amended): each source permission entry triggers at most one
    insert call recorded per-entry; the insert phase emits only insert events
    (no log rows, nothing else); insert failures never change whether
    copyPermissions returns normally; and the item-processing state — in
    particular whether the item is logged as copied or requeued — is
    independent of every permission oracle. -/
theorem c9_perm_entry_isolation (d : Drive) (srcId destId : String)
    (owners : List String) (ps : List Perm) :
    (∀ e ∈ insertLoop d destId ps, ∃ b ok, e = PermEv.insertCall b destId ok) ∧
    (insertLoop d destId ps).length ≤ ps.length ∧
    (ownersLoop d destId owners).length = owners.length ∧
    (∀ f, (copyPermissions { d with insOk := f } srcId owners destId).2 =
      (copyPermissions d srcId owners destId).2) ∧
    (∀ g f r st item nf,
      (handleOneItem { d with getPerms := g, insOk := f, removeOk := r } st item nf).1 =
        (handleOneItem d st item nf).1) :=
  ⟨insertLoop_events d destId ps, insertLoop_length d destId ps,
   ownersLoop_length d destId owners,
   fun f => copyPermissions_outcome_ignores_insOk d f srcId owners destId,
   fun g f r st item nf => (handleOneItem_state_ignores_perms d g f r st item nf).1⟩

def c9Drive : Drive :=
  { exDrive with
    getPerms := fun i =>
      if i == "s" then some [{ id := "p1", role := "reader", ptype := "user", emailAddress := "a@b.c" }]
      else some [],
    insOk := fun _ => false }

/-- Claim C9 counterexample: the failing insertPermission for the sole source
    entry is swallowed SILENTLY — the trace records the failed insert call but
    contains no log row at all, contradicting the claim's "(logged, not
    propagated)"; copyPermissions still returns normally. -/
theorem c9_counterexample :
    PermEv.insertCall (PermBody.byValue "reader" "user" "a@b.c") "dd" false ∈
      (copyPermissions c9Drive "s" [] "dd").1 ∧
    (copyPermissions c9Drive "s" [] "dd").1.filter isPermLog = [] ∧
    (copyPermissions c9Drive "s" [] "dd").2 = true := by
  decide

/-- Witness for c9_perm_entry_isolation at a one-entry permission list. -/
theorem c9_perm_entry_isolation_witness :
    ∃ b ok, PermEv.insertCall (PermBody.byValue "reader" "user" "a@b.c") "dd" false =
      PermEv.insertCall b "dd" ok :=
  (c9_perm_entry_isolation c9Drive "s" "dd" []
      [{ id := "p1", role := "reader", ptype := "user", emailAddress := "a@b.c" }]).1
    (PermEv.insertCall (PermBody.byValue "reader" "user" "a@b.c") "dd" false)
    (by decide)

end DriveCopy

namespace DriveCopy

/-! ### Claim C7 — descendant-destination rejection at initiation -/

/-- Every remote call the descendant walk makes is a read-only metadata
    fetch. -/
theorem isDescGo_events_meta (meta : String → List String) :
    ∀ fuel ids p i acc entry, ∀ e ∈ (isDescGo meta fuel ids p i acc entry).2,
      ∃ id, e = IEv.getMetaCall id := by
  intro fuel
  induction fuel with
  | zero =>
    intro ids p i acc entry e he
    simp [isDescGo] at he
  | succ n ih =>
    intro ids p i acc entry e he
    simp only [isDescGo] at he
    split at he
    · split at he
      · simp at he
      · exact ih _ _ _ _ _ e he
    · split at he
      · split at he
        · rcases List.mem_cons.mp he with he | he
          · exact ⟨_, he⟩
          · exact ih _ _ _ _ _ e he
        · split at he
          · rcases List.mem_singleton.mp he with he
            exact ⟨_, by rw [he]⟩
          · split at he
            · rcases List.mem_cons.mp he with he | he
              · exact ⟨_, he⟩
              · exact ih _ _ _ _ _ e he
            · rcases List.mem_cons.mp he with he | he
              · exact ⟨_, he⟩
              · rcases List.mem_append.mp he with he | he
                · exact ih _ _ _ _ _ e he
                · exact ih _ _ _ _ _ e he
      · simp at he

/-- One-step equation of the walk: function entry (the leading
    direct-equality loop). -/
theorem isDescGo_entry (meta : String → List String) (f : Nat) (ids : List String)
    (p : String) :
    isDescGo meta (f + 1) ids p 0 [] true =
      if ids.contains p then (some true, []) else isDescGo meta f ids p 0 [] false := rfl

/-- One-step equation of the walk: the indexed loop on a singleton id list at
    index 0. -/
theorem isDescGo_loop1 (meta : String → List String) (f : Nat) (a p : String)
    (acc : List Bool) :
    isDescGo meta (f + 1) [a] p 0 acc false =
      (if (meta a).length == 0 then
        ((isDescGo meta f [a] p 1 acc false).1,
         IEv.getMetaCall a :: (isDescGo meta f [a] p 1 acc false).2)
      else if (meta a).contains p then (some true, [IEv.getMetaCall a])
      else
        match (isDescGo meta f (meta a) p 0 [] true).1 with
        | none => (none, IEv.getMetaCall a :: (isDescGo meta f (meta a) p 0 [] true).2)
        | some b =>
          ((isDescGo meta f [a] p ((meta a).length + 1) (acc ++ [b]) false).1,
           IEv.getMetaCall a :: ((isDescGo meta f (meta a) p 0 [] true).2 ++
             (isDescGo meta f [a] p ((meta a).length + 1) (acc ++ [b]) false).2))) := rfl

/-- One-step equation of the walk: the indexed loop on a singleton id list
    past the end (the clobbered index jumped to 2). -/
theorem isDescGo_exit1 (meta : String → List String) (f : Nat) (a p : String)
    (acc : List Bool) :
    isDescGo meta (f + 1) [a] p 2 acc false = (some (acc.contains true), []) := rfl

/-- Along a single-parent ancestor chain the walk does find the ancestor:
    some fuel returns `true`. -/
theorem reaches_isDescGo (meta : String → List String) (p : String) :
    ∀ x, Reaches meta p x →
      ∃ fuel evs, 1 ≤ fuel ∧ isDescGo meta fuel [x] p 0 [] true = (some true, evs) := by
  intro x hr
  induction hr with
  | refl =>
    refine ⟨1, [], le_refl 1, ?_⟩
    rw [isDescGo_entry]
    simp
  | step hxy hyr ih =>
    rename_i a y
    obtain ⟨fl, evs, hge, hval⟩ := ih
    by_cases hxp : a = p
    · subst hxp
      refine ⟨1, [], le_refl 1, ?_⟩
      rw [isDescGo_entry]
      simp
    · have hca : ([a].contains p) = false := by
        simp only [List.contains_cons, List.contains_nil, Bool.or_false]
        exact beq_eq_false_iff_ne.mpr fun h => hxp h.symm
      by_cases hyp : y = p
      · subst hyp
        refine ⟨2, [IEv.getMetaCall a], by omega, ?_⟩
        rw [isDescGo_entry, hca]
        simp only [Bool.false_eq_true, if_false]
        rw [isDescGo_loop1, hxy]
        have h10 : (([y] : List String).length == 0) = false := rfl
        rw [h10]
        simp only [Bool.false_eq_true, if_false]
        have hcp : (([y] : List String).contains y) = true := by simp
        rw [hcp]
        simp
      · have hcy : ([y].contains p) = false := by
          simp only [List.contains_cons, List.contains_nil, Bool.or_false]
          exact beq_eq_false_iff_ne.mpr fun h => hyp h.symm
        obtain ⟨m, rfl⟩ : ∃ m, fl = m + 1 := ⟨fl - 1, by omega⟩
        refine ⟨m + 3, IEv.getMetaCall a :: evs, by omega, ?_⟩
        rw [isDescGo_entry, hca]
        simp only [Bool.false_eq_true, if_false]
        rw [isDescGo_loop1, hxy]
        have h10 : (([y] : List String).length == 0) = false := rfl
        rw [h10]
        simp only [Bool.false_eq_true, if_false, hcy, hval]
        rw [show ([y] : List String).length + 1 = 2 from rfl]
        rw [isDescGo_exit1]
        simp

/-- Claim C7 (amended): when the custom destination lies inside the source
    tree along a single-parent ancestor chain, initiation fails with the
    Descendant error before the destination folder is created and before any
    mutating remote call — although the descendant check itself issues
    read-only metadata fetches, and a containment reachable only through the
    second or later parent of a multi-parent ancestor can be missed entirely
    (the source's isDescendant reuses its loop variable `i` across nested
    loops). -/
theorem c7_descendant_rejected (meta : String → List String) (d : Drive) (o : Opts)
    (today : String) (hc : o.copyTo = "custom")
    (hr : Reaches meta o.srcFolderID o.destParentID) :
    ∃ fuel evs,
      initDestinationFolder meta d fuel o today = some (Except.error ErrDescendant, evs) ∧
      ∀ e ∈ evs, isMutatingIEv e = false := by
  obtain ⟨fl, evs, hge, hval⟩ := reaches_isDescGo meta o.srcFolderID o.destParentID hr
  have hb1 : (o.copyTo == "same") = false := by rw [hc]; decide
  have hb2 : (o.copyTo == "custom") = true := by rw [hc]; decide
  refine ⟨fl, evs, ?_, ?_⟩
  · unfold initDestinationFolder isDescendant
    simp only [hb1, hb2, Bool.false_eq_true, if_false, if_true, hval]
    simp
  · intro e he
    have he2 : e ∈ (isDescGo meta fl [o.destParentID] o.srcFolderID 0 [] true).2 := by
      rw [hval]
      exact he
    obtain ⟨id, rfl⟩ := isDescGo_events_meta meta fl _ _ 0 [] true e he2
    rfl

def c7meta1 : String → List String := fun s =>
  if s == "d0" then ["m"] else if s == "m" then ["src0"] else []

def c7meta2 : String → List String := fun s =>
  if s == "d0" then ["a", "b"]
  else if s == "a" then ["x"]
  else if s == "b" then ["src0"]
  else []

def c7opts : Opts :=
  { copyTo := "custom", srcFolderID := "src0", destParentID := "d0", destFolderName := "copy" }

/-- Claim C7 counterexample, two parts.  (1) With the destination a
    single-parent grandchild of the source (d0 inside src0 via m), initiation
    does fail, but only after the remote metadata fetch for d0 — remote calls
    ARE made before the error, contradicting "before any remote calls are
    made".  (2) With multi-parent ancestry d0 → [a, b], a → [x], b → [src0],
    the loop-variable clobbering makes the walk skip b, the containment via b
    is missed, and initiation SUCCEEDS — the destination folder is created
    inside the source tree, contradicting "initiation fails with the
    Descendant error". -/
theorem c7_counterexample :
    (∃ evs, initDestinationFolder c7meta1 exDrive 9 c7opts "t" =
        some (Except.error ErrDescendant, evs) ∧ IEv.getMetaCall "d0" ∈ evs) ∧
    (∃ evs, initDestinationFolder c7meta2 exDrive 9 c7opts "t" =
        some (Except.ok "newFolder", evs) ∧ IEv.insertFolderCall "d0" "copy" ∈ evs) := by
  constructor
  · exact ⟨[IEv.getMetaCall "d0", IEv.getMetaCall "m"], rfl, by decide⟩
  · exact ⟨[IEv.getMetaCall "d0", IEv.getMetaCall "a", IEv.getMetaCall "x",
      IEv.insertFolderCall "d0" "copy"], rfl, by decide⟩

/-- Witness for c7_descendant_rejected on the single-parent chain
    d0 → m → src0. -/
theorem c7_descendant_rejected_witness :
    ∃ fuel evs,
      initDestinationFolder c7meta1 exDrive fuel c7opts "t" =
        some (Except.error ErrDescendant, evs) ∧
      ∀ e ∈ evs, isMutatingIEv e = false :=
  c7_descendant_rejected c7meta1 exDrive c7opts "t" rfl
    (Reaches.step rfl (Reaches.step rfl Reaches.refl))

end DriveCopy

namespace DriveCopy

/-! ### Claim C1 — drain order within one `copy` invocation -/

theorem permStep_events (d : Drive) (st : PState) (item : Item) (nf : Option String) :
    ∀ e ∈ permStep d st item nf, ∃ pe, e = Ev.perm pe := by
  intro e he
  unfold permStep at he
  split at he
  · cases nf with
    | none => simp at he
    | some x =>
      rcases List.mem_map.mp he with ⟨pe, _, hpe⟩
      exact ⟨pe, hpe.symm⟩
  · simp at he

theorem handleOneItem_noShift (d : Drive) (st : PState) (item : Item) (nf : Option String) :
    ∀ e ∈ (handleOneItem d st item nf).2.2, isShiftEv e = false := by
  intro e he
  simp only [handleOneItem] at he
  split at he
  · rw [copyFile_events] at he
    rcases List.mem_append.mp he with he | he
    · rcases List.mem_append.mp he with he | he
      · rw [List.mem_singleton.mp he]
        rfl
      · rw [List.mem_singleton.mp he]
        rfl
    · obtain ⟨pe, rfl⟩ := permStep_events _ _ _ _ e he
      rfl
  · rw [copyFile_events] at he
    rcases List.mem_append.mp he with he | he
    · rcases List.mem_append.mp he with he | he
      · rw [List.mem_singleton.mp he]
        rfl
      · rw [List.mem_singleton.mp he]
        rfl
    · obtain ⟨pe, rfl⟩ := permStep_events _ _ _ _ e he
      rfl

theorem processRev_noShift (d : Drive) (tmr : Nat → Bool) :
    ∀ items st ts nf, ∀ e ∈ (processRev d tmr items st ts nf).2.2.2,
      isShiftEv e = false := by
  intro items
  induction items with
  | nil =>
    intro st ts nf e he
    simp [processRev] at he
  | cons a l ih =>
    intro st ts nf e he
    unfold processRev at he
    split at he
    · simp at he
    · split at he
      · rcases List.mem_cons.mp he with he | he
        · rw [he]
          rfl
        · exact ih _ _ _ e he
      · rcases List.mem_append.mp he with he | he
        · exact handleOneItem_noShift _ _ _ _ e he
        · exact ih _ _ _ e he

theorem processRetryGo_noShift (d : Drive) (tmr : Nat → Bool) :
    ∀ fuel st ts nf, ∀ e ∈ (processRetryGo d tmr fuel st ts nf).2.2,
      isShiftEv e = false := by
  intro fuel
  induction fuel with
  | zero =>
    intro st ts nf e he
    simp [processRetryGo] at he
  | succ n ih =>
    intro st ts nf e he
    unfold processRetryGo at he
    split at he
    · simp at he
    · split at he
      · simp at he
      · split at he
        · rcases List.mem_cons.mp he with he | he
          · rw [he]
            rfl
          · exact ih _ _ _ e he
        · rcases List.mem_append.mp he with he | he
          · exact handleOneItem_noShift _ _ _ _ e he
          · exact ih _ _ _ e he

theorem handleLeftovers_noShift (d : Drive) (tmr : Nat → Bool) (st : PState) (ts : TState) :
    ∀ e ∈ (handleLeftovers d tmr st ts).2.2, isShiftEv e = false := by
  intro e he
  unfold handleLeftovers at he
  split at he
  · simp at he
  · split at he
    · simp at he
    · exact processRev_noShift d tmr _ _ _ _ e he

theorem handleRetries_noShift (d : Drive) (tmr : Nat → Bool) (rf : Nat) (st : PState)
    (ts : TState) :
    ∀ e ∈ (handleRetries d tmr rf st ts).2.2, isShiftEv e = false := by
  intro e he
  unfold handleRetries at he
  split at he
  · simp at he
  · exact processRetryGo_noShift d tmr _ _ _ _ e he

/-- Claim C1 (amended): the trace of one `copy` invocation decomposes as the
    leftover drain, then the main pending loop, then the retry drain.  No
    `remaining` pop occurs during the leftover drain (the leftover page is
    drained before `pending` is consulted), and none occurs during the retry
    drain — but the retry drain comes AFTER the pending loop, not before it. -/
theorem c1_order (d : Drive) (tmr : Nat → Bool) (pf mf rf : Nat) (st0 : PState) :
    ∃ evL evM evR,
      (copy d tmr pf mf rf st0).2.2.1 =
        evL ++ Ev.phaseMain :: evM ++ Ev.phaseRetries :: evR ∧
      NoShift evL ∧ NoShift evR := by
  refine ⟨_, _, _, rfl, ?_, ?_⟩
  · exact handleLeftovers_noShift d tmr st0 (tUpdate tmr { ticks := 0, cont := true })
  · intro e he
    exact handleRetries_noShift d tmr rf _ _ e he

def c1Drive : Drive :=
  { listFiles := fun cf tok =>
      if cf == some "f" && tok == none then
        some { items := [{ id := "c", parent := "f", mimeType := "text/plain" }],
               nextPageToken := none }
      else some { items := [], nextPageToken := none },
    copyOk := fun _ => true, destId := fun it => it.id ++ "x",
    getPerms := fun _ => some [], insOk := fun _ => true, removeOk := fun _ _ => true }

def c1State : PState :=
  { map := [("f", "df"), ("rp", "drp")], remaining := ["f"],
    retryQueue := [{ id := "r", parent := "rp", mimeType := "text/plain", numberOfAttempts := 1 }],
    leftovers := none, pageToken := none, currFolderId := none, copyPermissions := false }

/-- Claim C1 counterexample: with a non-empty retry queue (item r) and a
    pending folder f, the invocation pops f from `remaining` (the shift event,
    index 1 of the trace) BEFORE it processes r (its copy call is at index 6):
    the retry queue is not drained before the pending queue is consulted. -/
theorem c1_counterexample :
    ((copy c1Drive (fun _ => true) 5 5 9 c1State).2.2.1.findIdx isShiftEv <
      (copy c1Drive (fun _ => true) 5 5 9 c1State).2.2.1.findIdx (isCopyCallOf "r")) ∧
    (copy c1Drive (fun _ => true) 5 5 9 c1State).2.2.1.any isShiftEv = true ∧
    (copy c1Drive (fun _ => true) 5 5 9 c1State).2.2.1.any (isCopyCallOf "r") = true := by
  decide

end DriveCopy

namespace DriveCopy

/-! ### Claim C2 — parent-first invariant: map and step lemmas -/

theorem mapLookup_cons_isSome (m : List (String × String)) (k v k2 : String)
    (h : (mapLookup m k2).isSome = true) :
    (mapLookup ((k, v) :: m) k2).isSome = true := by
  unfold mapLookup at *
  cases hk : (k == k2) <;> simp [List.find?_cons, hk]
  · revert h
    split <;> simp

theorem mapLookup_cons_self (m : List (String × String)) (k v : String) :
    mapLookup ((k, v) :: m) k = some v := by
  unfold mapLookup
  simp [List.find?_cons]

theorem mapExt_refl (m : List (String × String)) : MapExt m m := fun _ h => h

theorem mapExt_trans {m1 m2 m3 : List (String × String)}
    (h1 : MapExt m1 m2) (h2 : MapExt m2 m3) : MapExt m1 m3 :=
  fun k h => h2 k (h1 k h)

/-- The state copyFile produces: a successful folder insert appends the source
    id to `remaining` and binds it in `map`; every other outcome leaves the
    state unchanged. -/
theorem copyFile_state (d : Drive) (st : PState) (item : Item) :
    (copyFile d st item).2.1 =
      if (item.mimeType == folderMime) && d.copyOk item then
        { st with remaining := st.remaining ++ [item.id],
                  map := (item.id, d.destId item) :: st.map }
      else st := by
  unfold copyFile
  cases hmt : (item.mimeType == folderMime) <;> cases hok : d.copyOk item <;>
    simp [hmt, hok]

theorem copyFile_fst (d : Drive) (st : PState) (item : Item) :
    (copyFile d st item).1 = if d.copyOk item then some (d.destId item) else none := by
  unfold copyFile
  cases hmt : (item.mimeType == folderMime) <;> cases hok : d.copyOk item <;>
    simp [hmt, hok]

theorem permStep_no_copyCall (d : Drive) (st : PState) (item : Item) (nf : Option String)
    (it : Item) (m : Option String) :
    Ev.copyCall it m ∉ permStep d st item nf := by
  intro h
  obtain ⟨pe, hpe⟩ := permStep_events d st item nf _ h
  cases hpe

/-- All facts about one item-processing step needed for the parent-first
    invariant, assuming the processed item's parent is mapped. -/
theorem handleOneItem_spec (d : Drive) (st : PState) (item : Item) (nf : Option String)
    (hp : (mapLookup st.map item.parent).isSome = true) :
    (∀ it m, Ev.copyCall it m ∈ (handleOneItem d st item nf).2.2 → m.isSome = true) ∧
    MapExt st.map (handleOneItem d st item nf).1.map ∧
    (handleOneItem d st item nf).1.leftovers = st.leftovers ∧
    (handleOneItem d st item nf).1.pageToken = st.pageToken ∧
    (handleOneItem d st item nf).1.currFolderId = st.currFolderId ∧
    (handleOneItem d st item nf).1.copyPermissions = st.copyPermissions ∧
    (RInv st → RInv (handleOneItem d st item nf).1) ∧
    (QInv st → QInv (handleOneItem d st item nf).1) := by
  have hev := copyFile_events d st item
  have hst := copyFile_state d st item
  have hf := copyFile_fst d st item
  simp only [handleOneItem]
  cases hok : d.copyOk item
  · rw [hok] at hst hf
    simp only [Bool.and_false, Bool.false_eq_true, if_false] at hst hf
    simp only [hf, hev, hst]
    refine ⟨?_, mapExt_refl _, trivial, trivial, trivial, trivial, fun hR => hR, ?_⟩
    · intro it m hmem
      rcases List.mem_append.mp hmem with hmem | hmem
      · rcases List.mem_append.mp hmem with hmem | hmem
        · rw [show m = mapLookup st.map item.parent from by
            cases List.mem_singleton.mp hmem
            rfl]
          exact hp
        · rcases List.mem_singleton.mp hmem with h
          cases h
      · exact absurd hmem (permStep_no_copyCall _ _ _ _ _ _)
    · intro hQ it hit
      rcases List.mem_cons.mp hit with hit | hit
      · rw [hit]
        exact hp
      · exact hQ it hit
  · rw [hok] at hst hf
    simp only [Bool.and_true, if_true] at hst hf
    cases hmt : (item.mimeType == folderMime)
    · rw [hmt] at hst
      simp only [Bool.false_eq_true, if_false] at hst
      simp only [hf, hev, hst]
      refine ⟨?_, mapExt_refl _, trivial, trivial, trivial, trivial,
        fun hR => hR, fun hQ => hQ⟩
      intro it m hmem
      rcases List.mem_append.mp hmem with hmem | hmem
      · rcases List.mem_append.mp hmem with hmem | hmem
        · rw [show m = mapLookup st.map item.parent from by
            cases List.mem_singleton.mp hmem
            rfl]
          exact hp
        · rcases List.mem_singleton.mp hmem with h
          cases h
      · exact absurd hmem (permStep_no_copyCall _ _ _ _ _ _)
    · rw [hmt] at hst
      simp only [if_true] at hst
      simp only [hf, hev, hst]
      refine ⟨?_, ?_, trivial, trivial, trivial, trivial, ?_, ?_⟩
      · intro it m hmem
        rcases List.mem_append.mp hmem with hmem | hmem
        · rcases List.mem_append.mp hmem with hmem | hmem
          · rw [show m = mapLookup st.map item.parent from by
              cases List.mem_singleton.mp hmem
              rfl]
            exact hp
          · rcases List.mem_singleton.mp hmem with h
            cases h
        · exact absurd hmem (permStep_no_copyCall _ _ _ _ _ _)
      · exact fun k h => mapLookup_cons_isSome _ _ _ _ h
      · intro hR i hi
        rcases List.mem_append.mp hi with hi | hi
        · exact mapLookup_cons_isSome _ _ _ _ (hR i hi)
        · rcases List.mem_singleton.mp hi with h
          rw [h]
          simp [mapLookup_cons_self]
      · intro hQ it hit
        exact mapLookup_cons_isSome _ _ _ _ (hQ it hit)

end DriveCopy

namespace DriveCopy

/-- Invariant propagation through one fresh-list drain (processRev): if every
    listed item's parent and every pending/queued parent is mapped, then every
    copy call is issued with its parent mapped, the map only grows, leftover /
    pagination / current-folder fields are untouched, the invariants persist,
    and the parents of the undrained remainder stay mapped. -/
theorem processRev_spec (d : Drive) (tmr : Nat → Bool) :
    ∀ items st ts nf,
      (∀ it ∈ items, (mapLookup st.map it.parent).isSome = true) →
      RInv st → QInv st →
      (∀ it m, Ev.copyCall it m ∈ (processRev d tmr items st ts nf).2.2.2 →
        m.isSome = true) ∧
      MapExt st.map (processRev d tmr items st ts nf).2.1.map ∧
      (processRev d tmr items st ts nf).2.1.leftovers = st.leftovers ∧
      (processRev d tmr items st ts nf).2.1.pageToken = st.pageToken ∧
      (processRev d tmr items st ts nf).2.1.currFolderId = st.currFolderId ∧
      (processRev d tmr items st ts nf).2.1.copyPermissions = st.copyPermissions ∧
      RInv (processRev d tmr items st ts nf).2.1 ∧
      QInv (processRev d tmr items st ts nf).2.1 ∧
      (∀ it ∈ (processRev d tmr items st ts nf).1,
        (mapLookup (processRev d tmr items st ts nf).2.1.map it.parent).isSome = true) := by
  intro items
  induction items with
  | nil =>
    intro st ts nf hItems hR hQ
    refine ⟨?_, mapExt_refl _, rfl, rfl, rfl, rfl, hR, hQ, ?_⟩
    · intro it m hmem
      simp [processRev] at hmem
    · intro it hit
      simp [processRev] at hit
  | cons a l ih =>
    intro st ts nf hItems hR hQ
    unfold processRev
    split
    · exact ⟨fun it m hmem => absurd hmem (by simp), mapExt_refl _, rfl, rfl, rfl, rfl,
        hR, hQ, fun it hit => hItems it hit⟩
    · split
      · obtain ⟨hcc, hme, hlo, hpt, hcf, hcp, hRo, hQo, hleft⟩ :=
          ih st ts nf (fun it hit => hItems it (List.mem_cons_of_mem a hit)) hR hQ
        refine ⟨?_, hme, hlo, hpt, hcf, hcp, hRo, hQo, hleft⟩
        intro it m hmem
        rcases List.mem_cons.mp hmem with hmem | hmem
        · cases hmem
        · exact hcc it m hmem
      · have hp : (mapLookup st.map a.parent).isSome = true :=
          hItems a (List.mem_cons_self a l)
        obtain ⟨hcc1, hme1, hlo1, hpt1, hcf1, hcp1, hR1, hQ1⟩ :=
          handleOneItem_spec d st a nf hp
        obtain ⟨hcc, hme, hlo, hpt, hcf, hcp, hRo, hQo, hleft⟩ :=
          ih (handleOneItem d st a nf).1 (tUpdate tmr ts) (handleOneItem d st a nf).2.1
            (fun it hit => hme1 _ (hItems it (List.mem_cons_of_mem a hit)))
            (hR1 hR) (hQ1 hQ)
        refine ⟨?_, mapExt_trans hme1 hme, hlo.trans hlo1, hpt.trans hpt1,
          hcf.trans hcf1, hcp.trans hcp1, hRo, hQo, hleft⟩
        intro it m hmem
        rcases List.mem_append.mp hmem with hmem | hmem
        · exact hcc1 it m hmem
        · exact hcc it m hmem

/-- processFileList lifts processRev_spec to the unreversed list. -/
theorem processFileList_spec (d : Drive) (tmr : Nat → Bool) (items : List Item)
    (st : PState) (ts : TState)
    (hItems : ∀ it ∈ items, (mapLookup st.map it.parent).isSome = true)
    (hR : RInv st) (hQ : QInv st) :
    (∀ it m, Ev.copyCall it m ∈ (processFileList d tmr items st ts).2.2.2 →
      m.isSome = true) ∧
    MapExt st.map (processFileList d tmr items st ts).2.1.map ∧
    (processFileList d tmr items st ts).2.1.leftovers = st.leftovers ∧
    (processFileList d tmr items st ts).2.1.pageToken = st.pageToken ∧
    (processFileList d tmr items st ts).2.1.currFolderId = st.currFolderId ∧
    (processFileList d tmr items st ts).2.1.copyPermissions = st.copyPermissions ∧
    RInv (processFileList d tmr items st ts).2.1 ∧
    QInv (processFileList d tmr items st ts).2.1 ∧
    (∀ it ∈ (processFileList d tmr items st ts).1,
      (mapLookup (processFileList d tmr items st ts).2.1.map it.parent).isSome = true) := by
  obtain ⟨hcc, hme, hlo, hpt, hcf, hcp, hRo, hQo, hleft⟩ :=
    processRev_spec d tmr items.reverse st ts none
      (fun it hit => hItems it (List.mem_reverse.mp hit)) hR hQ
  refine ⟨hcc, hme, hlo, hpt, hcf, hcp, hRo, hQo, ?_⟩
  intro it hit
  have hit2 : it ∈ (processRev d tmr items.reverse st ts none).1.reverse := hit
  exact hleft it (List.mem_reverse.mp hit2)

/-- Invariant propagation through the aliased retry drain. -/
theorem processRetryGo_spec (d : Drive) (tmr : Nat → Bool) :
    ∀ fuel st ts nf, RInv st → QInv st →
      (∀ it m, Ev.copyCall it m ∈ (processRetryGo d tmr fuel st ts nf).2.2 →
        m.isSome = true) ∧
      MapExt st.map (processRetryGo d tmr fuel st ts nf).1.map ∧
      RInv (processRetryGo d tmr fuel st ts nf).1 ∧
      QInv (processRetryGo d tmr fuel st ts nf).1 := by
  intro fuel
  induction fuel with
  | zero =>
    intro st ts nf hR hQ
    exact ⟨fun it m hmem => absurd hmem (by simp [processRetryGo]), mapExt_refl _, hR, hQ⟩
  | succ n ih =>
    intro st ts nf hR hQ
    unfold processRetryGo
    split
    · exact ⟨fun it m hmem => absurd hmem (by simp), mapExt_refl _, hR, hQ⟩
    · split
      · exact ⟨fun it m hmem => absurd hmem (by simp), mapExt_refl _, hR, hQ⟩
      · rename_i item hlast
        have hmemq : item ∈ st.retryQueue := by
          have hq : st.retryQueue ≠ [] := by
            intro hh
            rw [hh] at hlast
            cases hlast
          have := List.getLast?_eq_getLast _ hq
          rw [this] at hlast
          cases hlast
          exact List.getLast_mem hq
        have hQd : QInv { st with retryQueue := st.retryQueue.dropLast } := by
          intro it hit
          exact hQ it (List.dropLast_subset _ hit)
        have hRd : RInv { st with retryQueue := st.retryQueue.dropLast } := hR
        split
        · obtain ⟨hcc, hme, hRo, hQo⟩ := ih _ ts nf hRd hQd
          refine ⟨?_, hme, hRo, hQo⟩
          intro it m hmem
          rcases List.mem_cons.mp hmem with hmem | hmem
          · cases hmem
          · exact hcc it m hmem
        · have hp : (mapLookup st.map item.parent).isSome = true := hQ item hmemq
          obtain ⟨hcc1, hme1, hlo1, hpt1, hcf1, hcp1, hR1, hQ1⟩ :=
            handleOneItem_spec d { st with retryQueue := st.retryQueue.dropLast } item nf hp
          obtain ⟨hcc, hme, hRo, hQo⟩ :=
            ih _ (tUpdate tmr ts) _ (hR1 hRd) (hQ1 hQd)
          refine ⟨?_, mapExt_trans hme1 hme, hRo, hQo⟩
          intro it m hmem
          rcases List.mem_append.mp hmem with hmem | hmem
          · exact hcc1 it m hmem
          · exact hcc it m hmem

end DriveCopy

namespace DriveCopy

/-- Invariant propagation through the pagination loop of one folder. -/
theorem paginateGo_spec (d : Drive) (tmr : Nat → Bool) (hlist : ListedChildrenOk d) :
    ∀ pf cf st ts fl,
      (∀ c, cf = some c → (mapLookup st.map c).isSome = true) →
      (∀ f, fl = some f → ∀ it ∈ f.items, (mapLookup st.map it.parent).isSome = true) →
      RInv st → QInv st →
      (∀ it m, Ev.copyCall it m ∈ (paginateGo d tmr pf cf st ts fl).2.2.1 →
        m.isSome = true) ∧
      MapExt st.map (paginateGo d tmr pf cf st ts fl).1.map ∧
      (paginateGo d tmr pf cf st ts fl).1.leftovers = st.leftovers ∧
      (paginateGo d tmr pf cf st ts fl).1.currFolderId = st.currFolderId ∧
      (paginateGo d tmr pf cf st ts fl).1.copyPermissions = st.copyPermissions ∧
      RInv (paginateGo d tmr pf cf st ts fl).1 ∧
      QInv (paginateGo d tmr pf cf st ts fl).1 ∧
      (∀ f, (paginateGo d tmr pf cf st ts fl).2.2.2 = some f →
        ∀ it ∈ f.items,
          (mapLookup (paginateGo d tmr pf cf st ts fl).1.map it.parent).isSome = true) := by
  intro pf
  induction pf with
  | zero =>
    intro cf st ts fl hcf hfl hR hQ
    refine ⟨?_, mapExt_refl _, rfl, rfl, rfl, hR, hQ, ?_⟩
    · intro it m hmem
      simp [paginateGo] at hmem
    · intro f hf it hit
      exact hfl f hf it hit
  | succ n ih =>
    intro cf st ts fl hcf hfl hR hQ
    cases hfetch : d.listFiles cf st.pageToken with
    | some newFl =>
      have hItems : ∀ it ∈ newFl.items, (mapLookup st.map it.parent).isSome = true := by
        intro it hit
        exact hcf it.parent (hlist cf st.pageToken newFl hfetch it hit).symm
      simp only [paginateGo, hfetch]
      split
      · -- page has items: drain it
        rename_i hlen
        obtain ⟨hcc1, hme1, hlo1, hpt1, hcf1, hcp1, hR1, hQ1, hleft1⟩ :=
          processFileList_spec d tmr newFl.items st ts hItems hR hQ
        set pr := processFileList d tmr newFl.items st ts with hpr
        have hR2 : RInv { pr.2.1 with pageToken := newFl.nextPageToken } := hR1
        have hQ2 : QInv { pr.2.1 with pageToken := newFl.nextPageToken } := hQ1
        split
        · obtain ⟨hcc, hme, hlo, hcfo, hcpo, hRo, hQo, hflo⟩ :=
            ih cf { pr.2.1 with pageToken := newFl.nextPageToken } (tUpdate tmr pr.2.2.1)
              (some { newFl with items := pr.1 })
              (fun c hc => hme1 c (hcf c hc))
              (fun f hf it hit => by
                cases hf
                exact hleft1 it hit)
              hR2 hQ2
          refine ⟨?_, mapExt_trans hme1 hme, hlo.trans hlo1, hcfo.trans hcf1,
            hcpo.trans hcp1, hRo, hQo, hflo⟩
          intro it m hmem
          rcases List.mem_append.mp hmem with hmem | hmem
          · rcases List.mem_append.mp hmem with hmem | hmem
            · rcases List.mem_singleton.mp hmem with h
              cases h
            · exact hcc1 it m hmem
          · exact hcc it m hmem
        · refine ⟨?_, hme1, hlo1, hcf1, hcp1, hR1, hQ1, ?_⟩
          · intro it m hmem
            rcases List.mem_append.mp hmem with hmem | hmem
            · rcases List.mem_singleton.mp hmem with h
              cases h
            · exact hcc1 it m hmem
          · intro f hf it hit
            cases hf
            exact hleft1 it hit
      · -- empty page
        rename_i hlen
        split
        · obtain ⟨hcc, hme, hlo, hcfo, hcpo, hRo, hQo, hflo⟩ :=
            ih cf { st with pageToken := newFl.nextPageToken } (tUpdate tmr ts)
              (some { newFl with items := [] })
              hcf
              (fun f hf it hit => by
                cases hf
                simp at hit)
              hR hQ
          refine ⟨?_, hme, hlo, hcfo, hcpo, hRo, hQo, hflo⟩
          intro it m hmem
          rcases List.mem_append.mp hmem with hmem | hmem
          · rcases List.mem_append.mp hmem with hmem | hmem
            · rcases List.mem_singleton.mp hmem with h
              cases h
            · simp at hmem
          · exact hcc it m hmem
        · refine ⟨?_, mapExt_refl _, rfl, rfl, rfl, hR, hQ, ?_⟩
          · intro it m hmem
            rcases List.mem_append.mp hmem with hmem | hmem
            · rcases List.mem_singleton.mp hmem with h
              cases h
            · simp at hmem
          · intro f hf it hit
            cases hf
            simp at hit
    | none =>
      cases hflc : fl with
      | none =>
        simp only [paginateGo, hfetch, hflc]
        refine ⟨?_, mapExt_refl _, rfl, rfl, rfl, hR, hQ, ?_⟩
        · intro it m hmem
          simp at hmem
        · intro f hf
          cases hf
      | some f0 =>
        have hItems : ∀ it ∈ f0.items, (mapLookup st.map it.parent).isSome = true :=
          hfl f0 hflc
        simp only [paginateGo, hfetch, hflc]
        split
        · rename_i hlen
          obtain ⟨hcc1, hme1, hlo1, hpt1, hcf1, hcp1, hR1, hQ1, hleft1⟩ :=
            processFileList_spec d tmr f0.items st ts hItems hR hQ
          set pr := processFileList d tmr f0.items st ts with hpr
          have hR2 : RInv { pr.2.1 with pageToken := f0.nextPageToken } := hR1
          have hQ2 : QInv { pr.2.1 with pageToken := f0.nextPageToken } := hQ1
          split
          · obtain ⟨hcc, hme, hlo, hcfo, hcpo, hRo, hQo, hflo⟩ :=
              ih cf { pr.2.1 with pageToken := f0.nextPageToken } (tUpdate tmr pr.2.2.1)
                (some { f0 with items := pr.1 })
                (fun c hc => hme1 c (hcf c hc))
                (fun f hf it hit => by
                  cases hf
                  exact hleft1 it hit)
                hR2 hQ2
            refine ⟨?_, mapExt_trans hme1 hme, hlo.trans hlo1, hcfo.trans hcf1,
              hcpo.trans hcp1, hRo, hQo, hflo⟩
            intro it m hmem
            rcases List.mem_append.mp hmem with hmem | hmem
            · rcases List.mem_append.mp hmem with hmem | hmem
              · simp at hmem
              · exact hcc1 it m hmem
            · exact hcc it m hmem
          · refine ⟨?_, hme1, hlo1, hcf1, hcp1, hR1, hQ1, ?_⟩
            · intro it m hmem
              rcases List.mem_append.mp hmem with hmem | hmem
              · simp at hmem
              · exact hcc1 it m hmem
            · intro f hf it hit
              cases hf
              exact hleft1 it hit
        · rename_i hlen
          split
          · obtain ⟨hcc, hme, hlo, hcfo, hcpo, hRo, hQo, hflo⟩ :=
              ih cf { st with pageToken := f0.nextPageToken } (tUpdate tmr ts)
                (some { f0 with items := [] })
                hcf
                (fun f hf it hit => by
                  cases hf
                  simp at hit)
                hR hQ
            refine ⟨?_, hme, hlo, hcfo, hcpo, hRo, hQo, hflo⟩
            intro it m hmem
            rcases List.mem_append.mp hmem with hmem | hmem
            · rcases List.mem_append.mp hmem with hmem | hmem
              · simp at hmem
              · simp at hmem
            · exact hcc it m hmem
          · refine ⟨?_, mapExt_refl _, rfl, rfl, rfl, hR, hQ, ?_⟩
            · intro it m hmem
              rcases List.mem_append.mp hmem with hmem | hmem
              · simp at hmem
              · simp at hmem
            · intro f hf it hit
              cases hf
              simp at hit

end DriveCopy

namespace DriveCopy

/-- Invariant propagation through the outer pending loop. -/
theorem mainLoopGo_spec (d : Drive) (tmr : Nat → Bool) (hlist : ListedChildrenOk d)
    (pf : Nat) :
    ∀ mf st ts fl,
      (∀ f, fl = some f → ∀ it ∈ f.items, (mapLookup st.map it.parent).isSome = true) →
      RInv st → QInv st → CInv st →
      (∀ it m, Ev.copyCall it m ∈ (mainLoopGo d tmr pf mf st ts fl).2.2.1 →
        m.isSome = true) ∧
      MapExt st.map (mainLoopGo d tmr pf mf st ts fl).1.map ∧
      RInv (mainLoopGo d tmr pf mf st ts fl).1 ∧
      QInv (mainLoopGo d tmr pf mf st ts fl).1 ∧
      CInv (mainLoopGo d tmr pf mf st ts fl).1 := by
  intro mf
  induction mf with
  | zero =>
    intro st ts fl hfl hR hQ hC
    exact ⟨fun it m hmem => absurd hmem (by simp [mainLoopGo]), mapExt_refl _, hR, hQ, hC⟩
  | succ n ih =>
    intro st ts fl hfl hR hQ hC
    unfold mainLoopGo
    split
    · split
      · -- continue pagination of currFolderId
        obtain ⟨hcc1, hme1, hlo1, hcf1, hcp1, hR1, hQ1, hflo1⟩ :=
          paginateGo_spec d tmr hlist pf st.currFolderId st ts fl hC hfl hR hQ
        have hC1 : CInv (paginateGo d tmr pf st.currFolderId st ts fl).1 := by
          intro c hc
          rw [hcf1] at hc
          exact hme1 c (hC c hc)
        obtain ⟨hcc, hme, hRo, hQo, hCo⟩ :=
          ih (paginateGo d tmr pf st.currFolderId st ts fl).1
            (paginateGo d tmr pf st.currFolderId st ts fl).2.1
            (paginateGo d tmr pf st.currFolderId st ts fl).2.2.2
            hflo1 hR1 hQ1 hC1
        refine ⟨?_, mapExt_trans hme1 hme, hRo, hQo, hCo⟩
        intro it m hmem
        rcases List.mem_append.mp hmem with hmem | hmem
        · exact hcc1 it m hmem
        · exact hcc it m hmem
      · split
        · -- remaining empty, shift undefined
          obtain ⟨hcc1, hme1, hlo1, hcf1, hcp1, hR1, hQ1, hflo1⟩ :=
            paginateGo_spec d tmr hlist pf none st ts fl (fun c hc => nomatch hc) hfl hR hQ
          have hC1 : CInv (paginateGo d tmr pf none st ts fl).1 := by
            intro c hc
            rw [hcf1] at hc
            exact hme1 c (hC c hc)
          obtain ⟨hcc, hme, hRo, hQo, hCo⟩ :=
            ih (paginateGo d tmr pf none st ts fl).1
              (paginateGo d tmr pf none st ts fl).2.1
              (paginateGo d tmr pf none st ts fl).2.2.2
              hflo1 hR1 hQ1 hC1
          refine ⟨?_, mapExt_trans hme1 hme, hRo, hQo, hCo⟩
          intro it m hmem
          rcases List.mem_cons.mp hmem with hmem | hmem
          · cases hmem
          · rcases List.mem_append.mp hmem with hmem | hmem
            · exact hcc1 it m hmem
            · exact hcc it m hmem
        · -- shift the front of remaining
          rename_i c rest hrem
          have hcr : c ∈ st.remaining := by
            rw [hrem]
            exact List.mem_cons_self c rest
          have hRr : RInv { st with remaining := rest } := by
            intro i hi
            exact hR i (by rw [hrem]; exact List.mem_cons_of_mem c hi)
          obtain ⟨hcc1, hme1, hlo1, hcf1, hcp1, hR1, hQ1, hflo1⟩ :=
            paginateGo_spec d tmr hlist pf (some c) { st with remaining := rest } ts fl
              (fun c2 hc2 => by
                cases hc2
                exact hR c hcr)
              hfl hRr hQ
          have hC1 : CInv (paginateGo d tmr pf (some c) { st with remaining := rest } ts fl).1 := by
            intro c2 hc2
            rw [hcf1] at hc2
            exact hme1 c2 (hC c2 hc2)
          obtain ⟨hcc, hme, hRo, hQo, hCo⟩ :=
            ih (paginateGo d tmr pf (some c) { st with remaining := rest } ts fl).1
              (paginateGo d tmr pf (some c) { st with remaining := rest } ts fl).2.1
              (paginateGo d tmr pf (some c) { st with remaining := rest } ts fl).2.2.2
              hflo1 hR1 hQ1 hC1
          refine ⟨?_, mapExt_trans hme1 hme, hRo, hQo, hCo⟩
          intro it m hmem
          rcases List.mem_cons.mp hmem with hmem | hmem
          · cases hmem
          · rcases List.mem_append.mp hmem with hmem | hmem
            · exact hcc1 it m hmem
            · exact hcc it m hmem
    · exact ⟨fun it m hmem => absurd hmem (by simp), mapExt_refl _, hR, hQ, hC⟩

/-- Invariant propagation through the leftover drain. -/
theorem handleLeftovers_spec (d : Drive) (tmr : Nat → Bool) (st : PState) (ts : TState)
    (hR : RInv st) (hQ : QInv st) (hL : LInv st) (hC : CInv st) :
    (∀ it m, Ev.copyCall it m ∈ (handleLeftovers d tmr st ts).2.2 → m.isSome = true) ∧
    MapExt st.map (handleLeftovers d tmr st ts).1.map ∧
    RInv (handleLeftovers d tmr st ts).1 ∧
    QInv (handleLeftovers d tmr st ts).1 ∧
    CInv (handleLeftovers d tmr st ts).1 := by
  unfold handleLeftovers
  split
  · exact ⟨fun it m hmem => absurd hmem (by simp), mapExt_refl _, hR, hQ, hC⟩
  · rename_i fl hfl
    split
    · exact ⟨fun it m hmem => absurd hmem (by simp), mapExt_refl _, hR, hQ, hC⟩
    · rename_i first rest hitems
      have hItems : ∀ it ∈ fl.items,
          (mapLookup ({ st with currFolderId := some first.parent } : PState).map it.parent).isSome = true :=
        fun it hit => hL fl hfl it hit
      obtain ⟨hcc1, hme1, hlo1, hpt1, hcf1, hcp1, hR1, hQ1, hleft1⟩ :=
        processFileList_spec d tmr fl.items { st with currFolderId := some first.parent } ts
          hItems hR hQ
      refine ⟨hcc1, hme1, hR1, hQ1, ?_⟩
      intro c hc
      rw [hcf1] at hc
      cases hc
      exact hme1 _ (hL fl hfl first (by rw [hitems]; exact List.mem_cons_self first rest))

/-- Every copy call of the retry drain carries a mapped parent. -/
theorem handleRetries_spec (d : Drive) (tmr : Nat → Bool) (rf : Nat) (st : PState)
    (ts : TState) (hR : RInv st) (hQ : QInv st) :
    ∀ it m, Ev.copyCall it m ∈ (handleRetries d tmr rf st ts).2.2 → m.isSome = true := by
  unfold handleRetries
  cases hq : st.retryQueue with
  | nil =>
    intro it m hmem
    simp at hmem
  | cons first rest =>
    exact (processRetryGo_spec d tmr rf
      { st with retryQueue := first :: rest, currFolderId := some first.parent } ts none
      (fun i hi => hR i hi)
      (fun it hit => hQ it (by rw [hq]; exact hit))).1

/-- Claim C2: parent-first.  Under the checkpoint invariants (every pending
    folder id, every queued retry item's parent, every leftover item's parent
    and the resumable current folder are mapped) and the query contract of the
    listing API, every copy call issued anywhere in a `copy` invocation is
    issued with the item's parent already bound in the id map; and copying a
    folder itself creates its `map` binding and its `remaining` entry as part
    of the successful insert, before any of its children can be listed. -/
theorem c2_parent_first (d : Drive) (tmr : Nat → Bool) (pf mf rf : Nat) (st0 : PState)
    (hlist : ListedChildrenOk d)
    (hR : RInv st0) (hQ : QInv st0) (hL : LInv st0) (hC : CInv st0) :
    CopyCallsOk (copy d tmr pf mf rf st0).2.2.1 ∧
    (∀ st item, item.mimeType = folderMime → d.copyOk item = true →
      mapLookup (copyFile d st item).2.1.map item.id = some (d.destId item) ∧
      (copyFile d st item).2.1.remaining = st.remaining ++ [item.id]) := by
  constructor
  · obtain ⟨hcc1, hme1, hR1, hQ1, hC1⟩ :=
      handleLeftovers_spec d tmr st0 (tUpdate tmr { ticks := 0, cont := true }) hR hQ hL hC
    obtain ⟨hcc2, hme2, hR2, hQ2, hC2⟩ :=
      mainLoopGo_spec d tmr hlist pf mf
        (handleLeftovers d tmr st0 (tUpdate tmr { ticks := 0, cont := true })).1
        (tUpdate tmr (handleLeftovers d tmr st0 (tUpdate tmr { ticks := 0, cont := true })).2.1)
        none (fun f hf => nomatch hf) hR1 hQ1 hC1
    have hcc3 :=
      handleRetries_spec d tmr rf
        (mainLoopGo d tmr pf mf
          (handleLeftovers d tmr st0 (tUpdate tmr { ticks := 0, cont := true })).1
          (tUpdate tmr (handleLeftovers d tmr st0 (tUpdate tmr { ticks := 0, cont := true })).2.1)
          none).1
        (mainLoopGo d tmr pf mf
          (handleLeftovers d tmr st0 (tUpdate tmr { ticks := 0, cont := true })).1
          (tUpdate tmr (handleLeftovers d tmr st0 (tUpdate tmr { ticks := 0, cont := true })).2.1)
          none).2.1
        hR2 hQ2
    intro it m hmem
    simp only [copy] at hmem
    rcases List.mem_append.mp hmem with h | h
    · rcases List.mem_append.mp h with h | h
      · exact hcc1 it m h
      · rcases List.mem_cons.mp h with h | h
        · cases h
        · exact hcc2 it m h
    · rcases List.mem_cons.mp h with h | h
      · cases h
      · exact hcc3 it m h
  · intro st item hmt hok
    have hb : (item.mimeType == folderMime) = true := beq_iff_eq.mpr hmt
    refine ⟨?_, ?_⟩
    · have hst := copyFile_state d st item
      rw [hb, hok] at hst
      simp only [Bool.and_self, if_true] at hst
      rw [hst]
      exact mapLookup_cons_self _ _ _
    · have hst := copyFile_state d st item
      rw [hb, hok] at hst
      simp only [Bool.and_self, if_true] at hst
      rw [hst]

def c2Drive : Drive :=
  { listFiles := fun _ _ => none, copyOk := fun _ => true,
    destId := fun it => it.id ++ "x", getPerms := fun _ => some [],
    insOk := fun _ => true, removeOk := fun _ _ => true }

def c2State : PState :=
  { map := [("src", "dst")], remaining := ["src"], retryQueue := [],
    leftovers := none, pageToken := none, currFolderId := none, copyPermissions := false }

/-- Witness for c2_parent_first at the freshly initialized checkpoint state. -/
theorem c2_parent_first_witness :
    CopyCallsOk (copy c2Drive (fun _ => true) 1 1 1 c2State).2.2.1 ∧
    (∀ st item, item.mimeType = folderMime → c2Drive.copyOk item = true →
      mapLookup (copyFile c2Drive st item).2.1.map item.id = some (c2Drive.destId item) ∧
      (copyFile c2Drive st item).2.1.remaining = st.remaining ++ [item.id]) :=
  c2_parent_first c2Drive (fun _ => true) 1 1 1 c2State
    (fun cf tok fl h => nomatch h)
    (fun i hi => by
      cases List.mem_singleton.mp hi
      decide)
    (fun it hit => nomatch hit)
    (fun fl hf => nomatch hf)
    (fun c hc => nomatch hc)

end DriveCopy
